import Mathlib

/-!
# Verification of the lunar_biscuit autonomous node engine

Shallow embedding of the core of `radiant_chacha` (the node engine of the
`lunar_biscuit` repository): payload similarity (`methods/similarity.py`),
neighbor-set mutation (`methods/movement.py`), two-phase discovery
(`methods/discovery.py`), identity hashing (`methods/address.py`), history
recording (`methods/history.py`) and gravity physics (`methods/physics.py`).

Modelling conventions:
* Python floats are modelled as exact rationals (`ℚ`); positions are triples
  of rationals.  The square root inside `numpy.linalg.norm`, CPython's `hash`
  builtin, `difflib.SequenceMatcher.ratio`, `hashlib.sha256` and the raw
  IEEE-754 serialisation `ndarray.tobytes` are standard-library black boxes;
  they are collected in a `PyLib` record of function parameters that every
  embedded operation receives, so theorems quantify over their behaviour and
  state any property of them they use as an explicit hypothesis.
* Nodes are identified by their unique integer `id`; Python object identity
  (`is`) and list membership coincide with `id` equality because the factory
  mints unique ids.  A simulation state is the factory's node list.
* Python's stable `list.sort(key=pair[0])` is embedded as a stable insertion
  sort (`sortPairs`), extensionally equal to any stable sort by score.
-/

namespace LunarBiscuit

/-- A 3-dimensional position / velocity vector (`numpy` array of shape `(3,)`),
with exact rational coordinates. -/
structure Vec3 where
  x : ℚ
  y : ℚ
  z : ℚ
deriving DecidableEq, Repr

/-- Componentwise difference, `obj.pos - other.pos`. -/
def Vec3.sub (a b : Vec3) : Vec3 := ⟨a.x - b.x, a.y - b.y, a.z - b.z⟩

/-- Componentwise sum. -/
def Vec3.add (a b : Vec3) : Vec3 := ⟨a.x + b.x, a.y + b.y, a.z + b.z⟩

/-- Scalar multiple. -/
def Vec3.smul (q : ℚ) (a : Vec3) : Vec3 := ⟨q * a.x, q * a.y, q * a.z⟩

/-- Scalar division. -/
def Vec3.divQ (a : Vec3) (q : ℚ) : Vec3 := ⟨a.x / q, a.y / q, a.z / q⟩

/-- The squared Euclidean norm; `numpy.linalg.norm` is the square root of
this, taken through the `PyLib.sqrtQ` parameter. -/
def Vec3.sqNorm (a : Vec3) : ℚ := a.x * a.x + a.y * a.y + a.z * a.z

/-- The zero vector `np.zeros(3)`. -/
def Vec3.zero : Vec3 := ⟨0, 0, 0⟩

/-- Node payloads (`data: Any`).  The shapes the similarity code
distinguishes: `None`, `str`, `bytes` (Python `bytearray` behaves like
`bytes` in the similarity rules and is not modelled separately), numbers
(`int`/`float`, exact rationals here), one-dimensional `numpy` arrays, and
string-keyed `dict`s. -/
inductive PyVal where
  | none : PyVal
  | str : String → PyVal
  | bytes : List Nat → PyVal
  | num : ℚ → PyVal
  | arr : List ℚ → PyVal
  | dict : List (String × PyVal) → PyVal

mutual
/-- Python `==` on payload values, `Option.none` meaning the comparison
raises or is ambiguous (comparisons involving a `numpy` array yield an
elementwise array whose truth value raises `ValueError`). Cross-type
comparisons are `False`; `dict` equality requires each side's keys to occur
in the other with equal values (association lists here always stand for
Python dicts, whose keys are distinct). -/
def eqVal : PyVal → PyVal → Option Bool
  | .none, .none => some true
  | .str a, .str b => some (a == b)
  | .bytes a, .bytes b => some (a == b)
  | .num a, .num b => some (a == b)
  | .arr _, _ => Option.none
  | _, .arr _ => Option.none
  | .dict a, .dict b =>
    match eqKeys a b, eqKeys b a with
    | some r₁, some r₂ => some (r₁ && r₂)
    | _, _ => Option.none
  | _, _ => some false
termination_by a b => sizeOf a + sizeOf b
decreasing_by all_goals (simp_wf; try omega)

/-- For each key of `a`, `b` holds the key and the values compare equal. -/
def eqKeys : List (String × PyVal) → List (String × PyVal) → Option Bool
  | [], _ => some true
  | (k, v) :: rest, b =>
    match eqLookup v k b, eqKeys rest b with
    | some r₁, some r₂ => some (r₁ && r₂)
    | _, _ => Option.none
termination_by l b => sizeOf l + sizeOf b
decreasing_by all_goals (simp_wf; try omega)

/-- Look `k` up in the association list and compare `v` with the value
found; `some false` when the key is absent. -/
def eqLookup (v : PyVal) (k : String) : List (String × PyVal) → Option Bool
  | [] => some false
  | (k', w) :: rest => if k' == k then eqVal v w else eqLookup v k rest
termination_by l => sizeOf v + sizeOf l
decreasing_by all_goals (simp_wf; try omega)
end

/-- Whether CPython `hash()` succeeds on the value: `dict` and `numpy`
arrays are unhashable (`TypeError`). -/
def hashable : PyVal → Bool
  | .dict _ => false
  | .arr _ => false
  | _ => true

/-- Stable insertion of a pair before the first entry whose score is not
smaller (the insertion step of a stable sort by score). -/
def insertPair (x : ℚ × Nat) : List (ℚ × Nat) → List (ℚ × Nat)
  | [] => [x]
  | y :: ys => if y.1 < x.1 then y :: insertPair x ys else x :: y :: ys

/-- Stable sort by ascending score: the embedding of
`list.sort(key=lambda pair: pair[0])` (Python's sort is stable, and all
stable sorts by a key agree extensionally). -/
def sortPairs : List (ℚ × Nat) → List (ℚ × Nat)
  | [] => []
  | x :: xs => insertPair x (sortPairs xs)

/-- Ascending-by-score predicate on a similarity index. -/
def PairsSorted (l : List (ℚ × Nat)) : Prop :=
  l.Pairwise (fun a b => a.1 ≤ b.1)

instance : DecidablePred PairsSorted := fun l =>
  inferInstanceAs (Decidable (l.Pairwise _))

/-! ## Standard-library black boxes

The Python code calls `numpy.linalg.norm` (a floating-point square root),
CPython's `hash`, `difflib.SequenceMatcher(...).ratio()`, `hashlib.sha256`
and `ndarray.tobytes`.  These library functions are modelled as parameters,
bundled in a record passed to the embedded operations; theorems state the
properties of them they rely on as explicit hypotheses. -/

/-- Parameter record for Python standard-library functions. -/
structure PyLib where
  /-- Square root applied by `np.linalg.norm` to a squared norm. -/
  sqrtQ : ℚ → ℚ
  /-- CPython `hash()` on hashable payload values. -/
  hashInt : PyVal → Int
  /-- `difflib.SequenceMatcher(None, a, b).ratio()`. -/
  ratioFn : String → String → ℚ
  /-- `hashlib.sha256(...).digest()` as a byte list. -/
  sha256 : List Nat → List Nat
  /-- Little-endian IEEE-754 bytes of one float (`ndarray.tobytes` per
  coordinate). -/
  f64le : ℚ → List Nat

/-! ## `methods/similarity.py` -/

/-- Dot product of two equal-length flat arrays (`np.dot`). -/
def dotQ (a b : List ℚ) : ℚ := (List.zipWith (fun x y => x * y) a b).sum

/-- Sum of squares (the squared `np.linalg.norm` of a flat array). -/
def sumSq (a : List ℚ) : ℚ := (a.map (fun x => x * x)).sum

/-- `_cosine_similarity`: cosine of two flat arrays rescaled from `[-1,1]`
to `[0,1]`; `0.0` when either norm is zero. -/
def _cosine_similarity (L : PyLib) (a b : List ℚ) : ℚ :=
  let denom := L.sqrtQ (sumSq a) * L.sqrtQ (sumSq b)
  if denom = 0 then 0
  else
    let cosine := dotQ a b / denom
    (cosine + 1) * (1 / 2)

/-- The key set of `a` intersected with that of `b` (`keys_a & keys_b`);
dict keys are distinct, so this filter is the intersection. -/
def sharedKeys (a b : List (String × PyVal)) : List String :=
  (a.map Prod.fst).filter (fun k => (b.map Prod.fst).contains k)

/-- `dict.get(k)`: the value bound to the first occurrence of `k`. -/
def lookupKey (k : String) : List (String × PyVal) → Option PyVal
  | [] => Option.none
  | (k', v) :: rest => if k' == k then some v else lookupKey k rest

/-- Count the shared keys at which `a.get(k) == b.get(k)`;
`Option.none` when some value comparison raises. -/
def countEqualAt (a b : List (String × PyVal)) : List String → Option Nat
  | [] => some 0
  | k :: ks =>
    match eqVal ((lookupKey k a).getD .none) ((lookupKey k b).getD .none),
        countEqualAt a b ks with
    | some r, some n => some ((if r then 1 else 0) + n)
    | _, _ => Option.none

/-- `_dict_similarity`: 1 for two empty mappings, 0 for mappings with no
shared key, else the fraction of shared keys with equal values.
`Option.none` when a value comparison raises (propagates to the outer
handler of `similarity_score`). -/
def _dict_similarity (a b : List (String × PyVal)) : Option ℚ :=
  if a.isEmpty && b.isEmpty then some 1
  else
    let shared := sharedKeys a b
    if shared.isEmpty then some 0
    else
      match countEqualAt a b shared with
      | some same => some ((same : ℚ) / (shared.length : ℚ))
      | Option.none => Option.none

/-- `_string_similarity`: 1 for equal strings, 0 when either is empty and
they differ, else `difflib`'s ratio. -/
def _string_similarity (L : PyLib) (a b : String) : ℚ :=
  if a == b then 1
  else if a.isEmpty || b.isEmpty then 0
  else L.ratioFn a b

/-- `bytes.decode(errors="ignore")`: lossy UTF-8 decoding.  Modelled for
the ASCII range (bytes ≥ 128 are dropped); the claims never inspect
multi-byte sequences. -/
def decodeLossy (bs : List Nat) : String :=
  String.mk (bs.filterMap (fun b => if b < 128 then some (Char.ofNat b) else Option.none))

/-- `similarity_score(a, b)`: payload similarity in `[0,1]`, dispatching in
source order on the shapes of the operands.  Any internal exception
(ambiguous array comparison, unhashable operand in the hash fallback,
mismatched flattened lengths making `np.dot` raise) is caught by the
enclosing handlers and yields 0. -/
def similarity_score (L : PyLib) (a b : PyVal) : ℚ :=
  match a, b with
  | .arr x, .arr y =>
    if x.length = y.length then _cosine_similarity L x y
    else 0
  | .dict x, .dict y =>
    match _dict_similarity x y with
    | some v => v
    | Option.none => 0
  | .bytes x, .bytes y => _string_similarity L (decodeLossy x) (decodeLossy y)
  | .str x, .str y => _string_similarity L x y
  | .num x, .num y =>
    if x = y then 1
    else
      let denom := max (abs x) (max (abs y) 1)
      let diff := abs (x - y) / denom
      max 0 (1 - diff)
  | _, _ =>
    match eqVal a b with
    | some true => 1
    | some false =>
      if hashable a && hashable b then
        if L.hashInt a = L.hashInt b then 1 else 0
      else 0
    | Option.none => 0

/-! ## The node and the simulation state

A `Node` carries the attributes the engine reads and writes (dataclass
fields of `NeighborBase` plus the per-kind parameters of
`interfaces/block.py`, `point.py`, `sphere.py`, and the `attempts`,
`permissive_mode` and `neighbors_by_similarity` attributes the movement
methods maintain).  Neighbor references are node ids; the factory mints
unique ids, so Python object identity and `in`-membership coincide with id
equality.  `max_degree` is `Option Nat`, `Option.none` standing for
`float('inf')` (Sphere); `influence_radius` is `Option ℚ`, `Option.none`
standing for `None`. -/

/-- Neighbor summary dict stored in history entries. -/
structure NbSummary where
  id : Nat
  type_ : String
  addr : String
deriving DecidableEq, Repr

/-- One history snapshot (`methods/history.py::snapshot`). -/
structure HEntry where
  idx : Nat
  timestamp : String
  addr : String
  neighbors : List NbSummary
  pos : Vec3
  data : PyVal
  gravity : ℚ
  type_ : String
  velocity : Vec3
  /-- The `neighbor_event` key written by discovery: connected peer id and
  score. -/
  event : Option (Nat × ℚ) := Option.none

/-- A node of the simulation. -/
structure Node where
  id : Nat
  data : PyVal
  addr : String
  pos : Vec3
  velocity : Vec3
  gravity : ℚ
  neighbors : List Nat
  neighbors_by_similarity : List (ℚ × Nat)
  is_anchor : Bool
  attempts : Int
  permissive_mode : Bool
  history : List HEntry
  type_ : String
  max_degree : Option Nat
  connection_threshold : ℚ
  influence_radius : Option ℚ
  stability_window : Nat

/-- `degree_limit()`: the per-kind maximum degree, `Option.none` meaning
`float('inf')`. -/
def Node.degree_limit (n : Node) : Option Nat := n.max_degree

/-- The factory's node list (`factory.nodes`), in creation order. -/
abbrev SimState := List Node

/-- Fetch the node with the given id (Python holds a direct object
reference; the embedding looks the object up by its unique id). -/
def getN (s : SimState) (i : Nat) : Option Node :=
  s.find? (fun n => n.id == i)

/-- Replace the node with the given id (the embedding of an in-place
mutation of that object). -/
def setN (s : SimState) (i : Nat) (f : Node → Node) : SimState :=
  s.map (fun n => if n.id == i then f n else n)

/-! ## `methods/movement.py` -/

/-- `distance_to`: Euclidean distance between two node positions. -/
def distance_to (L : PyLib) (obj other : Node) : ℚ :=
  L.sqrtQ (Vec3.sqNorm (obj.pos.sub other.pos))

/-- `can_accept_more_neighbors`: `len(obj.neighbors) < obj.degree_limit()`
(`float('inf')` accepts always). -/
def can_accept_more_neighbors (obj : Node) : Bool :=
  match obj.degree_limit with
  | Option.none => true
  | some lim => obj.neighbors.length < lim

/-- `_permissive_threshold`: `2 × degree_limit`, or `math.inf`
(`Option.none`) when the limit is infinite or not positive. -/
def _permissive_threshold (obj : Node) : Option ℚ :=
  match obj.degree_limit with
  | Option.none => Option.none
  | some lim => if lim = 0 then Option.none else some ((lim : ℚ) * 2)

/-- `_update_permissive_state`: flip `permissive_mode` on once `attempts`
reaches the threshold. -/
def _update_permissive_state (obj : Node) : Node :=
  if obj.permissive_mode then obj
  else
    match _permissive_threshold obj with
    | Option.none => obj
    | some t =>
      if (obj.attempts : ℚ) ≥ t then { obj with permissive_mode := true }
      else obj

/-- `register_neighbor_attempt_failure`: increment `attempts`, re-evaluate
permissive mode. -/
def register_neighbor_attempt_failure (obj : Node) : Node :=
  _update_permissive_state { obj with attempts := obj.attempts + 1 }

/-- `_record_neighbor_similarity`: append a `(score, neighbor)` pair
(`None` scores count as `0.0`) and stably re-sort the index by score. -/
def _record_neighbor_similarity (obj : Node) (otherId : Nat)
    (score : Option ℚ) : Node :=
  let numeric := score.getD 0
  { obj with neighbors_by_similarity :=
      sortPairs (obj.neighbors_by_similarity ++ [(numeric, otherId)]) }

/-- `lowest_similarity_neighbor`: `Option.none` on an empty index;
otherwise sort the index in place and return its head.  The sorted node is
returned too, because the in-place sort is a mutation. -/
def lowest_similarity_neighbor (obj : Node) : Node × Option (ℚ × Nat) :=
  match obj.neighbors_by_similarity with
  | [] => (obj, Option.none)
  | _ =>
    let sorted := sortPairs obj.neighbors_by_similarity
    ({ obj with neighbors_by_similarity := sorted }, sorted.head?)

/-- `remove_neighbor`: drop the first occurrence from `neighbors`, drop
every entry for the node from the similarity index; reports whether the
adjacency list shrank. -/
def remove_neighbor (obj : Node) (otherId : Nat) : Node × Bool :=
  let (nb, removed) :=
    if otherId ∈ obj.neighbors then (obj.neighbors.erase otherId, true)
    else (obj.neighbors, false)
  let sims :=
    if obj.neighbors_by_similarity.isEmpty then obj.neighbors_by_similarity
    else obj.neighbors_by_similarity.filter (fun pr => pr.2 != otherId)
  ({ obj with neighbors := nb, neighbors_by_similarity := sims }, removed)

/-- `add_neighbor`: reject self, duplicates, and saturation (the latter
registers a failed attempt); on success append to `neighbors`, record the
similarity entry, zero `attempts` and clear `permissive_mode`. -/
def add_neighbor (obj : Node) (otherId : Nat) (score : Option ℚ) :
    Node × Bool :=
  if otherId == obj.id then (obj, false)
  else if otherId ∈ obj.neighbors then (obj, false)
  else if ¬ can_accept_more_neighbors obj then
    (register_neighbor_attempt_failure obj, false)
  else
    let obj := { obj with neighbors := obj.neighbors ++ [otherId] }
    let obj := _record_neighbor_similarity obj otherId score
    ({ obj with attempts := 0, permissive_mode := false }, true)

/-! ## State-level neighbor operations

`evict_weakest_neighbor` and `restore_neighbor` mutate two node objects, so
their embeddings act on the whole simulation state. -/

/-- `add_neighbor` applied to a node held in the state. -/
def add_neighborS (s : SimState) (objId otherId : Nat) (score : Option ℚ) :
    SimState × Bool :=
  match getN s objId with
  | Option.none => (s, false)
  | some obj =>
    let r := add_neighbor obj otherId score
    (setN s objId (fun _ => r.1), r.2)

/-- `register_neighbor_attempt_failure` applied to a node held in the
state. -/
def register_failureS (s : SimState) (objId : Nat) : SimState :=
  setN s objId register_neighbor_attempt_failure

/-- `remove_neighbor` applied to a node held in the state (result flag
dropped, as at its call sites inside discovery). -/
def remove_neighborS (s : SimState) (objId otherId : Nat) : SimState :=
  setN s objId (fun n => (remove_neighbor n otherId).1)

/-- `evict_weakest_neighbor`: `Option.none` unless the node is permissive
and holds a weakest entry scored strictly below the incoming score
(`None` incoming counts as `0.0`); on success the link is removed from
both sides and the evicted `(score, neighbor)` pair returned.  The
in-place sort inside `lowest_similarity_neighbor` is a state change even
when nothing is evicted. -/
def evict_weakest_neighbor (s : SimState) (objId : Nat)
    (incoming_score : Option ℚ) : SimState × Option (ℚ × Nat) :=
  match getN s objId with
  | Option.none => (s, Option.none)
  | some obj =>
    if ¬ obj.permissive_mode then (s, Option.none)
    else
      let r := lowest_similarity_neighbor obj
      let s₁ := setN s objId (fun _ => r.1)
      match r.2 with
      | Option.none => (s₁, Option.none)
      | some (weakest_score, weakest_neighbor) =>
        let candidate_score := incoming_score.getD 0
        if candidate_score ≤ weakest_score then (s₁, Option.none)
        else
          let s₂ := remove_neighborS s₁ objId weakest_neighbor
          let s₃ := remove_neighborS s₂ weakest_neighbor objId
          (s₃, some (weakest_score, weakest_neighbor))

/-- `restore_neighbor`: re-add an evicted link on both sides with the saved
score (each `add_neighbor` result is discarded). -/
def restore_neighbor (s : SimState) (objId otherId : Nat)
    (score : Option ℚ) : SimState :=
  let s₁ := (add_neighborS s objId otherId score).1
  (add_neighborS s₁ otherId objId score).1

/-! ## `should_connect` (`methods/similarity.py`) -/

/-- The `try: distance_to ... except: math.inf` of `should_connect`;
`Option.none` stands for a non-finite distance.  With rational coordinates
the computation never raises, so the result is always finite. -/
def distFin (L : PyLib) (obj other : Node) : Option ℚ :=
  some (distance_to L obj other)

/-- The normalisation radius of `should_connect`: the mean of the two
influence radii clamped to `≥ 1` when both are numeric, else whichever is
numeric clamped to `≥ 1`, else `None`. -/
def chooseRadius (obj other : Node) : Option ℚ :=
  match obj.influence_radius, other.influence_radius with
  | some ra, some rb => some (max 1 ((ra + rb) / 2))
  | some ra, Option.none => some (max 1 ra)
  | Option.none, some rb => some (max 1 rb)
  | Option.none, Option.none => Option.none

/-- The proximity component of `should_connect`: for a finite distance,
linear decay over twice the radius when a radius is set, else
`1/(1+dist)`; `0.0` for a non-finite distance.  (The chosen radius is
`≥ 1`, so its Python truthiness test is exactly the `None` test.) -/
def proximityOf (dist : Option ℚ) (radius : Option ℚ) : ℚ :=
  match dist with
  | some d =>
    match radius with
    | some r => max 0 (1 - d / (r * 2))
    | Option.none => 1 / (1 + d)
  | Option.none => 0

/-- `should_connect(obj, other, threshold, distance_weight)`: combine
payload similarity and spatial proximity, clamp to `[0,1]`, and admit when
the score reaches the threshold. -/
def should_connect (L : PyLib) (obj other : Node) (threshold : ℚ)
    (distance_weight : ℚ) : Bool × ℚ :=
  let data_sim := similarity_score L obj.data other.data
  let dist := distFin L obj other
  let radius := chooseRadius obj other
  let proximity := proximityOf dist radius
  let score := (1 - distance_weight) * data_sim + distance_weight * proximity
  let score := max 0 (min 1 score)
  (score ≥ threshold, score)

/-! ## `methods/discovery.py` -/

/-- Write the `neighbor_event` into the last history entry of the
initiator (`IndexError` on an empty history is swallowed). -/
def recordEvent (s : SimState) (objId candId : Nat) (score : ℚ) :
    SimState :=
  setN s objId (fun n =>
    match n.history with
    | [] => n
    | _ => { n with history :=
        n.history.dropLast ++
          (n.history.getLast?.map
            (fun e => { e with event := some (candId, score) })).toList })

/-- Roll an eviction back via `restore_neighbor`, when one happened. -/
def restoreOpt (s : SimState) (objId : Nat) (ev : Option (ℚ × Nat)) :
    SimState :=
  match ev with
  | some (ws, wn) => restore_neighbor s objId wn (some ws)
  | Option.none => s

/-- Steps 7–9 of one discovery iteration: the two `add_neighbor` calls,
with rollback of the recorded evictions and an attempt-failure on the
refusing side when either add fails, and the history event on success. -/
def negotiateAdds (s : SimState) (objId candId : Nat) (score : ℚ)
    (evicted_self evicted_cand : Option (ℚ × Nat)) : SimState :=
  let r₁ := add_neighborS s objId candId (some score)
  if ¬ r₁.2 then
    let s₂ := restoreOpt r₁.1 objId evicted_self
    let s₃ := restoreOpt s₂ candId evicted_cand
    register_failureS s₃ objId
  else
    let r₂ := add_neighborS r₁.1 candId objId (some score)
    if ¬ r₂.2 then
      let s₂ := remove_neighborS r₂.1 objId candId
      let s₃ := restoreOpt s₂ objId evicted_self
      let s₄ := restoreOpt s₃ candId evicted_cand
      register_failureS s₄ candId
    else recordEvent r₂.1 objId candId score

/-- Steps 5–9 of one discovery iteration, entered after the initiator's
optional eviction: the candidate-side capacity checks and the adds. -/
def negotiateCand (s : SimState) (objId candId : Nat)
    (score : ℚ) (evicted_self : Option (ℚ × Nat)) : SimState :=
  match getN s candId with
  | Option.none => s
  | some cand =>
    let cand_is_full := ¬ can_accept_more_neighbors cand
    if cand_is_full && ¬ cand.permissive_mode then
      register_failureS (restoreOpt s objId evicted_self) candId
    else if cand_is_full then
      let r := evict_weakest_neighbor s candId (some score)
      match r.2 with
      | Option.none =>
        register_failureS (restoreOpt r.1 objId evicted_self) candId
      | some ec => negotiateAdds r.1 objId candId score evicted_self (some ec)
    else negotiateAdds s objId candId score evicted_self Option.none

/-- One iteration of the discovery loop for candidate `candId` (the body
of the `for` loop of `discover_and_negotiate`). -/
def discoverStep (L : PyLib) (s : SimState) (objId candId : Nat) :
    SimState :=
  match getN s objId, getN s candId with
  | some obj, some cand =>
    if candId == objId then s
    else if candId ∈ obj.neighbors then s
    else
      let node_is_full := ¬ can_accept_more_neighbors obj
      if node_is_full && ¬ obj.permissive_mode then register_failureS s objId
      else
        let r := should_connect L obj cand obj.connection_threshold (2 / 5)
        if ¬ r.1 then s
        else if node_is_full then
          let e := evict_weakest_neighbor s objId (some r.2)
          match e.2 with
          | Option.none => e.1
          | some es => negotiateCand e.1 objId candId r.2 (some es)
        else negotiateCand s objId candId r.2 Option.none
  | _, _ => s

/-- `discover_and_negotiate`: one pass over the factory's candidate list,
snapshotted (by id) before the loop starts. -/
def discover_and_negotiate (L : PyLib) (s : SimState) (objId : Nat) :
    SimState :=
  (s.map (fun n => n.id)).foldl (fun st c => discoverStep L st objId c) s

/-! ## `methods/physics.py` and the movement statistics -/

/-- `stability`: mean Euclidean distance between consecutive positions of
the last `STABILITY_WINDOW` history entries; `0.0` with fewer than two
recorded positions.  (Python's `positions[-w:]` takes the whole list when
`w = 0`.) -/
def stability (L : PyLib) (obj : Node) : ℚ :=
  let positions := obj.history.map (fun e => e.pos)
  if positions.length < 2 then 0
  else
    let positions :=
      if obj.stability_window = 0 then positions
      else positions.drop (positions.length - obj.stability_window)
    let deltas := (positions.zip positions.tail).map
      (fun pr => L.sqrtQ (Vec3.sqNorm (pr.2.sub pr.1)))
    deltas.sum / (deltas.length : ℚ)

/-- `competition` (`methods/movement.py`): `max(0, attempts - limit)`; an
infinite limit gives `max(0, -inf) = 0`. -/
def competition (obj : Node) : ℚ :=
  match obj.degree_limit with
  | Option.none => 0
  | some lim => max 0 ((obj.attempts : ℚ) - (lim : ℚ))

/-- The `desired` neighbor count inside `compute_gravity`.  The source
sets it in up to three non-exclusive `if`s (infinite limit → 10, Block →
`min(5, max(0, limit))` with `min(5, inf) = 5`, Point → 1); a kind that
sets none of them hits a `NameError` caught by the `except`, which falls
back to `3.0`. -/
def desiredNeighbors (obj : Node) : ℚ :=
  if obj.type_ == "Block" then
    match obj.degree_limit with
    | Option.none => 5
    | some lim => min 5 (max 0 (lim : ℚ))
  else if obj.type_ == "Point" then 1
  else
    match obj.degree_limit with
    | Option.none => 10
    | some _ => 3

/-- `compute_gravity`: `competition - 0.5·stability + 0.5·deficit`, clamped
to `[0, 20]`. -/
def compute_gravity (L : PyLib) (obj : Node) : ℚ :=
  let s := stability L obj
  let c := competition obj
  let deficit := max 0 (desiredNeighbors obj - (obj.neighbors.length : ℚ))
  let gravity := c - (1 / 2) * s + (1 / 2) * deficit
  max 0 (min 20 gravity)

/-- `local_gravity_vector`: unit vector toward the centroid of the
neighbors' positions; zero when there are no neighbors or the centroid
coincides with the node. -/
def local_gravity_vector (L : PyLib) (s : SimState) (obj : Node) : Vec3 :=
  if obj.neighbors.isEmpty then Vec3.zero
  else
    let ps := obj.neighbors.filterMap (fun i => (getN s i).map (fun n => n.pos))
    let k := (ps.length : ℚ)
    let centroid : Vec3 :=
      ⟨(ps.map Vec3.x).sum / k, (ps.map Vec3.y).sum / k, (ps.map Vec3.z).sum / k⟩
    let direction := centroid.sub obj.pos
    let norm := L.sqrtQ direction.sqNorm
    if norm = 0 then Vec3.zero
    else direction.divQ norm

/-- `apply_gravity`: anchors are untouched; otherwise store the recomputed
gravity, and when the centroid direction is non-zero move by
`direction · gravity · dt` and set the velocity to `delta / dt`. -/
def apply_gravity (L : PyLib) (s : SimState) (objId : Nat) (dt : ℚ) :
    SimState :=
  match getN s objId with
  | Option.none => s
  | some obj =>
    if obj.is_anchor then s
    else
      let obj := { obj with gravity := compute_gravity L obj }
      let direction := local_gravity_vector L s obj
      if L.sqrtQ direction.sqNorm = 0 then setN s objId (fun _ => obj)
      else
        let delta := Vec3.smul (obj.gravity * dt) direction
        let obj := { obj with pos := obj.pos.add delta,
                              velocity := delta.divQ dt }
        setN s objId (fun _ => obj)

/-! ## `methods/address.py` -/

/-- UTF-8 bytes of a string (`str.encode()`). -/
def strBytes (t : String) : List Nat :=
  t.toUTF8.toList.map (fun b => b.toNat)

mutual
/-- Python `str()` of a payload, the canonical payload summary hashed into
the address.  A fixed canonical printer; the claims depend only on it
being a function of the payload. -/
def pyStr : PyVal → String
  | .none => "None"
  | .str t => t
  | .bytes bs => "b" ++ toString bs
  | .num q => toString q
  | .arr l => toString l
  | .dict kvs => "dict(" ++ pyStrKVs kvs ++ ")"
termination_by v => sizeOf v
decreasing_by all_goals (simp_wf; try omega)

/-- Printer for the key/value list of a dict payload. -/
def pyStrKVs : List (String × PyVal) → String
  | [] => ""
  | (k, v) :: rest => k ++ ": " ++ pyStr v ++ ", " ++ pyStrKVs rest
termination_by l => sizeOf l
decreasing_by all_goals (simp_wf; try omega)
end

/-- The raw IEEE-754 bytes of the position array (`obj.pos.tobytes()`),
coordinate by coordinate through the library serialisation parameter. -/
def posBytes (L : PyLib) (p : Vec3) : List Nat :=
  L.f64le p.x ++ L.f64le p.y ++ L.f64le p.z

/-- Ascending insertion for node ids (the embedding of
`sorted(obj.neighbors, key=lambda n: n.id)`; ids are distinct, so
stability is immaterial). -/
def insertId (x : Nat) : List Nat → List Nat
  | [] => [x]
  | y :: ys => if y < x then y :: insertId x ys else x :: y :: ys

/-- Sort node ids ascending. -/
def sortIds : List Nat → List Nat
  | [] => []
  | x :: xs => insertId x (sortIds xs)

/-- The neighbor-address section of the digest input: each neighbor's
`addr`, taken in ascending order of neighbor id.  (`addr` is always a
string in the model, so the `isinstance` guard always passes.) -/
def neighborAddrBytes (s : SimState) (obj : Node) : List Nat :=
  ((sortIds obj.neighbors).filterMap (fun i => getN s i)).foldl
    (fun acc n => acc ++ strBytes n.addr) []

/-- The byte sequence fed to SHA-256 by `update_addr`, in source order:
decimal id, payload string, raw position bytes, then the sorted neighbor
addresses (skipped when there are no neighbors, which feeds the same
bytes). -/
def addrInput (L : PyLib) (s : SimState) (obj : Node) : List Nat :=
  strBytes (toString obj.id) ++ strBytes (pyStr obj.data) ++
    posBytes L obj.pos ++
    (if obj.neighbors.isEmpty then [] else neighborAddrBytes s obj)

/-- One lowercase hexadecimal digit. -/
def hexDigitChar (n : Nat) : Char :=
  "0123456789abcdef".toList.getD n '0'

/-- `hexdigest()`: two lowercase hex digits per digest byte. -/
def toHexLower (bs : List Nat) : String :=
  String.mk (bs.flatMap (fun b => [hexDigitChar (b / 16 % 16), hexDigitChar (b % 16)]))

/-- `update_addr` (`methods/address.py`): store the lowercase hex SHA-256
of the digest input. -/
def update_addr (L : PyLib) (s : SimState) (obj : Node) : Node :=
  { obj with addr := toHexLower (L.sha256 (addrInput L s obj)) }

/-! ## `methods/history.py` -/

/-- The neighbor summary list (`[{"id": .., "type": .., "addr": ..}]`). -/
def nbSummary (s : SimState) (obj : Node) : List NbSummary :=
  obj.neighbors.filterMap (fun i =>
    (getN s i).map (fun n => ⟨n.id, n.type_, n.addr⟩))

/-- `snapshot`: append one history entry; `idx` is the pre-append length,
the timestamp is supplied by the environment. -/
def snapshot (s : SimState) (ts : String) (obj : Node) : Node :=
  { obj with history := obj.history ++
      [{ idx := obj.history.length
         timestamp := ts
         addr := obj.addr
         neighbors := nbSummary s obj
         pos := obj.pos
         data := obj.data
         gravity := obj.gravity
         type_ := obj.type_
         velocity := obj.velocity }] }

/-- The `_has_changed` closure of `record_history`: compare the current
state against the last history entry.  The numpy comparisons
`(pos != last).all()` and `(velocity != last).all()` report a change only
when EVERY coordinate differs. -/
def _has_changed (s : SimState) (obj : Node) : Bool :=
  match obj.history.getLast? with
  | Option.none => false
  | some last =>
    if nbSummary s obj != last.neighbors then true
    else if obj.pos.x != last.pos.x && obj.pos.y != last.pos.y
        && obj.pos.z != last.pos.z then true
    else if obj.gravity != last.gravity then true
    else if obj.type_ != last.type_ then true
    else if obj.velocity.x != last.velocity.x
        && obj.velocity.y != last.velocity.y
        && obj.velocity.z != last.velocity.z then true
    else false

/-- `record_history`: snapshot unconditionally on an empty history, then
rehash and snapshot again if `_has_changed` reports a difference from the
last entry. -/
def record_history (L : PyLib) (s : SimState) (ts : String) (obj : Node) :
    Node :=
  let obj := if obj.history.length == 0 then snapshot s ts obj else obj
  if _has_changed s obj then snapshot s ts (update_addr L s obj)
  else obj

/-! ## `methods/tick.py` -/

/-- One tick of a node: record history, run discovery, apply gravity. -/
def tick (L : PyLib) (s : SimState) (objId : Nat) (ts : String) (dt : ℚ) :
    SimState :=
  let s := setN s objId (fun n => record_history L s ts n)
  let s := discover_and_negotiate L s objId
  apply_gravity L s objId dt

/-! ## Specification-side models

For refinement claims, a second definition written from the words of the
specification, to be compared with the embedding of the source. -/

namespace SpecC6

/-- Spec §4.2: `clamp01`. -/
def clamp01 (q : ℚ) : ℚ := min 1 (max 0 q)

/-- Spec §4.2 radius: if both nodes have a numeric `influence_radius`, use
`max(1, mean)`; else use whichever is numeric, clamped to `≥ 1`; if
neither, `None`. -/
def radius (obj other : Node) : Option ℚ :=
  match obj.influence_radius, other.influence_radius with
  | some ra, some rb => some (max 1 ((ra + rb) / 2))
  | some ra, Option.none => some (max 1 ra)
  | Option.none, some rb => some (max 1 rb)
  | Option.none, Option.none => Option.none

/-- Spec §4.2 proximity: `max(0, 1 − dist/(2·radius))` for a finite
distance with a radius; `1/(1+dist)` with no radius; `0` for a non-finite
distance. -/
def proximity (dist : Option ℚ) (r : Option ℚ) : ℚ :=
  match dist, r with
  | some d, some rad => max 0 (1 - d / (2 * rad))
  | some d, Option.none => 1 / (1 + d)
  | Option.none, _ => 0

/-- Spec §4.2 / claim C6: `value = clamp01(0.6·data_sim + 0.4·proximity)`,
`admit = value ≥ threshold`. -/
def score (L : PyLib) (obj other : Node) (threshold : ℚ) : Bool × ℚ :=
  let data_sim := similarity_score L obj.data other.data
  let dist := distFin L obj other
  let value := clamp01 ((6 / 10) * data_sim +
    (4 / 10) * proximity dist (radius obj other))
  (value ≥ threshold, value)

end SpecC6

/-- Spec §4.6 digest input: ASCII decimal of `id`, the payload summary,
the IEEE-754 bytes of `pos`, and each neighbor's `addr` in ascending order
of neighbor id. -/
def specDigestInput (L : PyLib) (s : SimState) (obj : Node) : List Nat :=
  strBytes (toString obj.id) ++ strBytes (pyStr obj.data) ++
    posBytes L obj.pos ++
    ((sortIds obj.neighbors).filterMap (fun i => getN s i)).flatMap
      (fun n => strBytes n.addr)

/-- The payload pairs not covered by the array, mapping, text/bytes, or
number rules of `similarity_score` (those that reach the fallback). -/
def uncoveredPair : PyVal → PyVal → Bool
  | .arr _, .arr _ => false
  | .dict _, .dict _ => false
  | .bytes _, .bytes _ => false
  | .str _, .str _ => false
  | .num _, .num _ => false
  | _, _ => true

/-! ## Well-formedness of a simulation state

The invariants §3 of the specification asserts at tick boundaries, used as
the induction hypothesis for the discovery pass. -/

/-- The registry mints unique ids. -/
def IdsNodup (s : SimState) : Prop := (s.map (fun n => n.id)).Nodup

instance : DecidablePred IdsNodup := fun s =>
  inferInstanceAs (Decidable (List.Nodup (s.map (fun (n : Node) => n.id))))

/-- The node with id `j` exists and lists `i` back. -/
def linksBack (s : SimState) (i j : Nat) : Bool :=
  match getN s j with
  | some m => decide (i ∈ m.neighbors)
  | Option.none => false

/-- `|neighbors| ≤ max_degree` (no bound when the limit is infinite). -/
def degreeOK (n : Node) : Bool :=
  match n.degree_limit with
  | Option.none => true
  | some lim => n.neighbors.length ≤ lim

/-- Per-node well-formedness: no duplicate neighbors, no self-link, every
neighbor resolves and links back (symmetry), the degree bound holds, and
every similarity-index entry names a current neighbor. -/
def NodeWF (s : SimState) (n : Node) : Prop :=
  n.neighbors.Nodup ∧ n.id ∉ n.neighbors ∧
    (∀ j ∈ n.neighbors, linksBack s n.id j = true) ∧
    degreeOK n = true ∧
    (∀ p ∈ n.neighbors_by_similarity, p.2 ∈ n.neighbors)

instance (s : SimState) : DecidablePred (NodeWF s) := fun n =>
  inferInstanceAs (Decidable (n.neighbors.Nodup ∧ n.id ∉ n.neighbors ∧
    (∀ j ∈ n.neighbors, linksBack s n.id j = true) ∧ degreeOK n = true ∧
    (∀ p ∈ n.neighbors_by_similarity, p.2 ∈ n.neighbors)))

/-- State well-formedness: unique ids and per-node well-formedness. -/
def StateWF (s : SimState) : Prop := IdsNodup s ∧ ∀ n ∈ s, NodeWF s n

instance : DecidablePred StateWF := fun s =>
  inferInstanceAs (Decidable (IdsNodup s ∧ ∀ n ∈ s, NodeWF s n))

/-- The symmetric-neighbor relation of invariant 3 / claim C1:
`b ∈ neighbors(a) ⇔ a ∈ neighbors(b)` for all node pairs. -/
def NbSymm (s : SimState) : Prop :=
  ∀ a ∈ s, ∀ b ∈ s, (b.id ∈ a.neighbors ↔ a.id ∈ b.neighbors)

/-! ## Operation sequences (for the permissive-mode invariant) -/

/-- The operations of the engine that touch node state, as invocable from
the tick pipeline and the neighbor API. -/
inductive SimOp where
  | add (objId otherId : Nat) (score : Option ℚ)
  | remove (objId otherId : Nat)
  | fail (objId : Nat)
  | evict (objId : Nat) (score : Option ℚ)
  | restore (objId otherId : Nat) (score : Option ℚ)
  | discover (objId : Nat)
  | gravity (objId : Nat) (dt : ℚ)
  | record (objId : Nat) (ts : String)
  | tickOp (objId : Nat) (ts : String) (dt : ℚ)

/-- Run one operation against the state. -/
def runOp (L : PyLib) (s : SimState) : SimOp → SimState
  | .add i j sc => (add_neighborS s i j sc).1
  | .remove i j => remove_neighborS s i j
  | .fail i => register_failureS s i
  | .evict i sc => (evict_weakest_neighbor s i sc).1
  | .restore i j sc => restore_neighbor s i j sc
  | .discover i => discover_and_negotiate L s i
  | .gravity i dt => apply_gravity L s i dt
  | .record i ts => setN s i (fun n => record_history L s ts n)
  | .tickOp i ts dt => tick L s i ts dt

/-- Run a sequence of operations. -/
def runOps (L : PyLib) (s : SimState) (ops : List SimOp) : SimState :=
  ops.foldl (runOp L) s

/-- The permissive-mode invariant of claim C5: `permissive_mode` is true
only when the degree limit is finite and positive and
`attempts ≥ 2 × degree_limit`. -/
def PermInv (n : Node) : Prop :=
  n.permissive_mode = true →
    ∃ lim, n.degree_limit = some lim ∧ lim ≠ 0 ∧
      (n.attempts : ℚ) ≥ 2 * (lim : ℚ)

instance : DecidablePred PermInv := fun n => by
  cases hd : n.degree_limit with
  | none =>
    refine decidable_of_iff (n.permissive_mode = false) ⟨?_, ?_⟩
    · intro hf hp
      rw [hp] at hf
      cases hf
    · intro hp
      cases hb : n.permissive_mode
      · rfl
      · rcases hp hb with ⟨l, hl, _⟩
        rw [hd] at hl
        cases hl
  | some lim =>
    refine decidable_of_iff
      (n.permissive_mode = true → lim ≠ 0 ∧ (n.attempts : ℚ) ≥ 2 * (lim : ℚ))
      ⟨?_, ?_⟩
    · intro h hp
      exact ⟨lim, hd, h hp⟩
    · intro h hp
      rcases h hp with ⟨l, hl, h1, h2⟩
      rw [hd] at hl
      cases hl
      exact ⟨h1, h2⟩

/-- All nodes of the state satisfy the permissive-mode invariant. -/
def PermInvState (s : SimState) : Prop := ∀ n ∈ s, PermInv n

instance : DecidablePred PermInvState := fun s =>
  inferInstanceAs (Decidable (∀ n ∈ s, PermInv n))

/-! ## Concrete inputs for witnesses and counterexamples -/

/-- A library instance with trivial black-box functions (a square root
assigning 0 to 0, constant hash, etc.). -/
def zeroLib : PyLib :=
  { sqrtQ := fun _ => 0, hashInt := fun _ => 0, ratioFn := fun _ _ => 0,
    sha256 := fun _ => [], f64le := fun _ => [] }

/-- An injective constant-length encoding of a rational into three
"bytes" (numerator magnitude, sign flag, denominator), standing in for the
IEEE-754 serialisation in witnesses. -/
def ratEncode (q : ℚ) : List Nat :=
  [q.num.natAbs, if q.num < 0 then 1 else 0, q.den]

/-- `zeroLib` with the injective float serialisation. -/
def encLib : PyLib := { zeroLib with f64le := ratEncode }

/-- A default Block-like node with a given id. -/
def mkNode (i : Nat) : Node :=
  { id := i, data := .none, addr := "a", pos := ⟨0, 0, 0⟩,
    velocity := ⟨0, 0, 0⟩, gravity := 0, neighbors := [],
    neighbors_by_similarity := [], is_anchor := false, attempts := 0,
    permissive_mode := false, history := [], type_ := "Block",
    max_degree := some 6, connection_threshold := 2 / 5,
    influence_radius := some 8, stability_window := 10 }

/-- Pre-state for the rollback analysis: node 1 has a failed-attempt count
of 1 and admits everything; node 2 already (one-sidedly) lists node 1, so
the reciprocal add of a discovery step refuses. -/
def nodeC2a : Node :=
  { mkNode 1 with attempts := 1, data := .num 1, connection_threshold := 0 }

/-- The receiving node of the rollback scenario. -/
def nodeC2b : Node :=
  { mkNode 2 with
    neighbors := [1]
    neighbors_by_similarity := [(1 / 2, 1)]
    data := .num 1 }

/-- The two-node pre-state of the rollback scenario. -/
def stateC2 : SimState := [nodeC2a, nodeC2b]

/-- A Block (id 1) and a Point (id 2) at the same position with payloads
`1` and `0`: the pair scores `0.4`, above the Block's threshold and below
the Point's. -/
def nodeC10a : Node := { mkNode 1 with data := .num 1 }

/-- The Point of the threshold-asymmetry scenario. -/
def nodeC10b : Node :=
  { mkNode 2 with
    data := .num 0
    type_ := "Point"
    max_degree := some 1
    connection_threshold := 4 / 5
    influence_radius := some 3 }

/-- The Block/Point pre-state of the threshold-asymmetry scenario. -/
def stateC10 : SimState := [nodeC10a, nodeC10b]

/-- A history entry as left by an initial snapshot at the origin. -/
def hEntry0 : HEntry :=
  { idx := 0, timestamp := "t", addr := "a", neighbors := [],
    pos := ⟨0, 0, 0⟩, data := .none, gravity := 0, type_ := "Block",
    velocity := ⟨0, 0, 0⟩ }

/-- A node that moved along the x-axis only since its last snapshot. -/
def nodeC7 : Node := { mkNode 1 with history := [hEntry0], pos := ⟨1, 0, 0⟩ }

/-- An anchor node created with the unvalidated gravity override `25`. -/
def nodeC8 : Node := { mkNode 1 with is_anchor := true, gravity := 25 }

/-- The state holding only the overridden anchor. -/
def stateC8 : SimState := [nodeC8]

/-- The node produced by a successful `add_neighbor` (proof abbreviation). -/
def addedNode (o : Node) (j : Nat) (sc : Option ℚ) : Node :=
  { o with neighbors := o.neighbors ++ [j],
           neighbors_by_similarity :=
             sortPairs (o.neighbors_by_similarity ++ [(sc.getD 0, j)]),
           attempts := 0, permissive_mode := false }

/-- The node after the in-place sort of its similarity index (proof
abbreviation for the mutation inside `lowest_similarity_neighbor`). -/
def sortedSimNode (o : Node) : Node :=
  { o with neighbors_by_similarity := sortPairs o.neighbors_by_similarity }

/-! ## General lemmas about the stable sort -/

theorem insertPair_perm (x : ℚ × Nat) (l : List (ℚ × Nat)) :
    List.Perm (insertPair x l) (x :: l) := by
  induction l with
  | nil => simp [insertPair]
  | cons y ys ih =>
    by_cases h : y.1 < x.1
    · simpa [insertPair, h] using (ih.cons y).trans (List.Perm.swap x y ys)
    · simp [insertPair, h]

theorem sortPairs_perm (l : List (ℚ × Nat)) :
    List.Perm (sortPairs l) l := by
  induction l with
  | nil => simp [sortPairs]
  | cons x xs ih =>
    exact (insertPair_perm x (sortPairs xs)).trans (ih.cons x)

theorem insertPair_sorted {l : List (ℚ × Nat)} (x : ℚ × Nat)
    (h : PairsSorted l) : PairsSorted (insertPair x l) := by
  induction l with
  | nil => simp [insertPair, PairsSorted]
  | cons y ys ih =>
    rcases List.pairwise_cons.mp h with ⟨hy, htail⟩
    by_cases hlt : y.1 < x.1
    · have := ih htail
      simp only [insertPair, if_pos hlt]
      refine List.pairwise_cons.mpr ⟨?_, this⟩
      intro a ha
      have : a ∈ x :: ys := (insertPair_perm x ys).mem_iff.mp ha
      rcases List.mem_cons.mp this with h' | h'
      · exact h' ▸ le_of_lt hlt
      · exact hy a h'
    · simp only [insertPair, if_neg hlt]
      refine List.pairwise_cons.mpr ⟨?_, h⟩
      intro a ha
      rcases List.mem_cons.mp ha with h' | h'
      · exact h' ▸ le_of_not_lt hlt
      · exact le_trans (le_of_not_lt hlt) (hy a h')

theorem sortPairs_sorted (l : List (ℚ × Nat)) :
    PairsSorted (sortPairs l) := by
  induction l with
  | nil => simp [sortPairs, PairsSorted]
  | cons x xs ih => exact insertPair_sorted x ih

theorem sortPairs_of_sorted {l : List (ℚ × Nat)} (h : PairsSorted l) :
    sortPairs l = l := by
  induction l with
  | nil => rfl
  | cons x xs ih =>
    rcases List.pairwise_cons.mp h with ⟨hx, htail⟩
    rw [sortPairs, ih htail]
    cases xs with
    | nil => rfl
    | cons y ys =>
      have : ¬ y.1 < x.1 := not_lt_of_le (hx y (List.mem_cons_self y ys))
      simp [insertPair, this]

theorem insertPair_eq_cons {x : ℚ × Nat} {l : List (ℚ × Nat)}
    (h : ∀ a ∈ l, x.1 ≤ a.1) : insertPair x l = x :: l := by
  cases l with
  | nil => rfl
  | cons y ys =>
    have : ¬ y.1 < x.1 := not_lt_of_le (h y (List.mem_cons_self y ys))
    simp [insertPair, this]

theorem filter_insertPair (p : ℚ × Nat → Bool) (x : ℚ × Nat)
    {l : List (ℚ × Nat)} (hs : PairsSorted l) :
    (insertPair x l).filter p =
      if p x then insertPair x (l.filter p) else l.filter p := by
  induction l with
  | nil => by_cases h : p x <;> simp [insertPair, h, List.filter]
  | cons y ys ih =>
    rcases List.pairwise_cons.mp hs with ⟨hy_le, htail⟩
    by_cases hlt : y.1 < x.1
    · by_cases hy : p y <;> by_cases hx : p x <;>
        simp [insertPair, hlt, List.filter_cons, hy, ih htail, hx]
    · have hcons : ∀ a ∈ (y :: ys).filter p, x.1 ≤ a.1 := by
        intro a ha
        have ha' : a ∈ y :: ys := List.mem_of_mem_filter ha
        rcases List.mem_cons.mp ha' with h' | h'
        · exact h' ▸ le_of_not_lt hlt
        · exact le_trans (le_of_not_lt hlt) (hy_le a h')
      by_cases hx : p x
      · rw [if_pos hx, insertPair_eq_cons hcons]
        by_cases hy : p y <;>
          simp [insertPair, hlt, List.filter_cons, hy, hx]
      · by_cases hy : p y <;>
          simp [insertPair, hlt, List.filter_cons, hy, hx]

/-- Appending a fresh entry, stably re-sorting, then filtering that entry's
node out returns a sorted entry-free index unchanged (the similarity-index
arithmetic behind add-then-remove rollbacks). -/
theorem sortPairs_append_filter {l : List (ℚ × Nat)} {s : ℚ} {c : Nat}
    (hs : PairsSorted l) (hfree : ∀ a ∈ l, a.2 ≠ c) :
    (sortPairs (l ++ [(s, c)])).filter (fun pr => pr.2 != c) = l := by
  induction l with
  | nil => simp [sortPairs, insertPair, List.filter]
  | cons y ys ih =>
    rcases List.pairwise_cons.mp hs with ⟨hy_le, htail⟩
    have hfree' : ∀ a ∈ ys, a.2 ≠ c := fun a ha =>
      hfree a (List.mem_cons_of_mem y ha)
    have hM : PairsSorted (sortPairs (ys ++ [(s, c)])) :=
      sortPairs_sorted _
    have hy : (fun pr : ℚ × Nat => pr.2 != c) y = true := by
      simpa using hfree y (List.mem_cons_self y ys)
    rw [List.cons_append, sortPairs, filter_insertPair _ _ hM, if_pos hy,
      ih htail hfree']
    refine insertPair_eq_cons ?_
    intro a ha
    exact hy_le a ha



/-! ## Lemmas about state lookup and update -/

theorem getN_id {s : SimState} {i : Nat} {n : Node}
    (h : getN s i = some n) : n.id = i := by
  have := List.find?_some h
  simpa using this

theorem getN_mem {s : SimState} {i : Nat} {n : Node}
    (h : getN s i = some n) : n ∈ s :=
  List.mem_of_find?_eq_some h

theorem mem_getN {s : SimState} {n : Node} (hd : IdsNodup s) (hn : n ∈ s) :
    getN s n.id = some n := by
  induction s with
  | nil => cases hn
  | cons a rest ih =>
    have hd2 : a.id ∉ rest.map (fun m => m.id) ∧
        (rest.map (fun m => m.id)).Nodup := by
      have : (a.id :: rest.map (fun m => m.id)).Nodup := by
        simpa [IdsNodup] using hd
      exact List.nodup_cons.mp this
    rcases List.mem_cons.mp hn with rfl | hmem
    · simp [getN, List.find?]
    · have hne : ¬ (a.id == n.id) = true := by
        intro hbeq
        have heq : a.id = n.id := by simpa using hbeq
        refine hd2.1 ?_
        rw [heq]
        exact List.mem_map_of_mem (fun m => m.id) hmem
      simpa [getN, List.find?, hne] using ih hd2.2 hmem

theorem nodup_id_unique {s : SimState} {a b : Node} (hd : IdsNodup s)
    (ha : a ∈ s) (hb : b ∈ s) (hid : a.id = b.id) : a = b := by
  have h1 := mem_getN hd ha
  have h2 := mem_getN hd hb
  rw [hid] at h1
  rw [h1] at h2
  exact (Option.some.injEq _ _ ▸ h2 : a = b)

theorem getN_setN_ne {s : SimState} {i j : Nat} {f : Node → Node}
    (hf : ∀ n, n.id = i → (f n).id = i) (hij : j ≠ i) :
    getN (setN s i f) j = getN s j := by
  have hij' : ¬ i = j := fun h => hij h.symm
  induction s with
  | nil => rfl
  | cons a rest ih =>
    by_cases hai : (a.id == i) = true
    · have haid : a.id = i := by simpa using hai
      have h1 : ¬ ((f a).id == j) = true := by simp [hf a haid, hij']
      have hja : ¬ (a.id == j) = true := by simp [haid, hij']
      simpa [setN, getN, List.find?, hai, h1, hja] using ih
    · by_cases haj : (a.id == j) = true
      · simp [setN, getN, List.find?, hai, haj]
      · simpa [setN, getN, List.find?, hai, haj] using ih

theorem getN_setN_same {s : SimState} {i : Nat} {f : Node → Node}
    (hf : ∀ n, n.id = i → (f n).id = i) :
    getN (setN s i f) i = (getN s i).map f := by
  induction s with
  | nil => rfl
  | cons a rest ih =>
    by_cases hai : (a.id == i) = true
    · have hfi : ((f a).id == i) = true := by
        simp [hf a (by simpa using hai)]
      simp [setN, getN, List.find?, hai, hfi]
    · simpa [setN, getN, List.find?, hai] using ih

theorem setN_not_found {s : SimState} {i : Nat} {f : Node → Node}
    (h : getN s i = Option.none) : setN s i f = s := by
  induction s with
  | nil => rfl
  | cons a rest ih =>
    by_cases hai : (a.id == i) = true
    · simp [getN, List.find?, hai] at h
    · have h' : getN rest i = Option.none := by
        simpa [getN, List.find?, hai] using h
      have hstep : setN (a :: rest) i f =
          (if (a.id == i) = true then f a else a) :: setN rest i f := rfl
      rw [hstep, if_neg hai, ih h']

theorem ids_setN {s : SimState} {i : Nat} {f : Node → Node}
    (hf : ∀ n, n.id = i → (f n).id = i) :
    (setN s i f).map (fun n => n.id) = s.map (fun n => n.id) := by
  unfold setN
  rw [List.map_map]
  refine List.map_congr_left ?_
  intro a _
  by_cases hai : a.id = i <;> simp [hai, hf a]

theorem IdsNodup_setN {s : SimState} {i : Nat} {f : Node → Node}
    (hf : ∀ n, n.id = i → (f n).id = i) (hd : IdsNodup s) :
    IdsNodup (setN s i f) := by
  unfold IdsNodup
  rw [ids_setN hf]
  exact hd

theorem mem_setN {s : SimState} {i : Nat} {f : Node → Node} {n' : Node} :
    n' ∈ setN s i f ↔ ∃ n ∈ s, n' = (if (n.id == i) = true then f n else n) := by
  unfold setN
  simp only [List.mem_map]
  constructor
  · rintro ⟨n, hn, rfl⟩
    exact ⟨n, hn, rfl⟩
  · rintro ⟨n, hn, rfl⟩
    exact ⟨n, hn, rfl⟩

theorem setN_setN {s : SimState} {i : Nat} {f g : Node → Node}
    (hf : ∀ n, n.id = i → (f n).id = i) :
    setN (setN s i f) i g = setN s i (fun n => g (f n)) := by
  unfold setN
  rw [List.map_map]
  refine List.map_congr_left ?_
  intro a _
  by_cases hai : a.id = i
  · simp [hai, hf a hai]
  · simp [hai]

theorem setN_self {s : SimState} {i : Nat} {n : Node} (hd : IdsNodup s)
    (h : getN s i = some n) : setN s i (fun _ => n) = s := by
  have hid : n.id = i := getN_id h
  have hmem : n ∈ s := getN_mem h
  unfold setN
  conv_rhs => rw [← List.map_id s]
  refine List.map_congr_left ?_
  intro a ha
  by_cases hai : (a.id == i) = true
  · have : a.id = n.id := by
      have : a.id = i := by simpa using hai
      rw [this, hid]
    have := nodup_id_unique hd ha hmem this
    simp [hai, this]
  · simp [hai]

/-! ## Field lemmas for the node-local operations -/

theorem update_permissive_eq (n : Node) :
    _update_permissive_state n = n ∨
      _update_permissive_state n = { n with permissive_mode := true } := by
  unfold _update_permissive_state
  by_cases h1 : n.permissive_mode
  · exact Or.inl (by simp [h1])
  · cases h2 : _permissive_threshold n with
    | none => exact Or.inl (by simp [h1, h2])
    | some t =>
      by_cases h3 : (n.attempts : ℚ) ≥ t
      · exact Or.inr (by simp [h1, h2, h3])
      · exact Or.inl (by simp [h1, h2, h3])

theorem ups_attempts (n : Node) :
    (_update_permissive_state n).attempts = n.attempts := by
  rcases update_permissive_eq n with h | h <;> rw [h]

theorem ups_neighbors (n : Node) :
    (_update_permissive_state n).neighbors = n.neighbors := by
  rcases update_permissive_eq n with h | h <;> rw [h]

theorem ups_sim (n : Node) :
    (_update_permissive_state n).neighbors_by_similarity =
      n.neighbors_by_similarity := by
  rcases update_permissive_eq n with h | h <;> rw [h]

theorem ups_id (n : Node) : (_update_permissive_state n).id = n.id := by
  rcases update_permissive_eq n with h | h <;> rw [h]

theorem ups_degree (n : Node) :
    (_update_permissive_state n).max_degree = n.max_degree := by
  rcases update_permissive_eq n with h | h <;> rw [h]

theorem register_attempts (n : Node) :
    (register_neighbor_attempt_failure n).attempts = n.attempts + 1 := by
  unfold register_neighbor_attempt_failure
  rw [ups_attempts]

theorem register_neighbors (n : Node) :
    (register_neighbor_attempt_failure n).neighbors = n.neighbors := by
  unfold register_neighbor_attempt_failure
  rw [ups_neighbors]

theorem register_sim (n : Node) :
    (register_neighbor_attempt_failure n).neighbors_by_similarity =
      n.neighbors_by_similarity := by
  unfold register_neighbor_attempt_failure
  rw [ups_sim]

theorem register_id (n : Node) :
    (register_neighbor_attempt_failure n).id = n.id := by
  unfold register_neighbor_attempt_failure
  rw [ups_id]

theorem register_degree (n : Node) :
    (register_neighbor_attempt_failure n).max_degree = n.max_degree := by
  unfold register_neighbor_attempt_failure
  rw [ups_degree]

/-! ## Claim theorems -/

/-- C4: `add_neighbor` returns false leaving the node unchanged on a
self-add or a duplicate; when saturated it registers a failed attempt
(incrementing `attempts`, neighbors untouched) and returns false; on
success it returns true, appends the neighbor, resets `attempts` to 0,
clears `permissive_mode`, and the similarity index gains exactly the
`(score, other)` entry (with a `None` score read as 0) and is sorted
ascending. -/
theorem c4_add_neighbor_spec (o : Node) (otherId : Nat) (sc : Option ℚ) :
    (otherId = o.id → add_neighbor o otherId sc = (o, false)) ∧
    (otherId ∈ o.neighbors → add_neighbor o otherId sc = (o, false)) ∧
    (otherId ≠ o.id → otherId ∉ o.neighbors →
      can_accept_more_neighbors o = false →
      add_neighbor o otherId sc = (register_neighbor_attempt_failure o, false) ∧
      (add_neighbor o otherId sc).1.attempts = o.attempts + 1 ∧
      (add_neighbor o otherId sc).1.neighbors = o.neighbors) ∧
    (otherId ≠ o.id → otherId ∉ o.neighbors →
      can_accept_more_neighbors o = true →
      (add_neighbor o otherId sc).2 = true ∧
      (add_neighbor o otherId sc).1.neighbors = o.neighbors ++ [otherId] ∧
      (add_neighbor o otherId sc).1.attempts = 0 ∧
      (add_neighbor o otherId sc).1.permissive_mode = false ∧
      List.Perm (add_neighbor o otherId sc).1.neighbors_by_similarity
        ((sc.getD 0, otherId) :: o.neighbors_by_similarity) ∧
      PairsSorted (add_neighbor o otherId sc).1.neighbors_by_similarity) := by
  refine ⟨?_, ?_, ?_, ?_⟩
  · intro h
    simp [add_neighbor, h]
  · intro h
    by_cases h0 : otherId = o.id
    · simp [add_neighbor, h0]
    · simp [add_neighbor, h0, h]
  · intro h0 h1 h2
    refine ⟨by simp [add_neighbor, h0, h1, h2], ?_, ?_⟩
    · simp [add_neighbor, h0, h1, h2, register_attempts]
    · simp [add_neighbor, h0, h1, h2, register_neighbors]
  · intro h0 h1 h2
    refine ⟨?_, ?_, ?_, ?_, ?_, ?_⟩ <;>
      simp [add_neighbor, h0, h1, h2, _record_neighbor_similarity]
    · exact (sortPairs_perm _).trans (List.perm_append_singleton _ _)
    · exact sortPairs_sorted _

/-- `max 0 (min 1 x)` and `min 1 (max 0 x)` agree: the source's clamp and
the specification's `clamp01`. -/
theorem clamp_comm (x : ℚ) : max 0 (min 1 x) = min 1 (max 0 x) := by
  rw [max_min_distrib_left, max_eq_right zero_le_one]

/-- C6: for every pair of nodes, `should_connect` at the source's default
distance weight agrees with the specification's scoring model
(`value = clamp01(0.6·data_sim + 0.4·proximity)` with the spec's radius
and proximity rules), the returned value lies in `[0,1]`, and admission
holds exactly when the value reaches the calling node's
`connection_threshold`. -/
theorem c6_should_connect_spec (L : PyLib) (o oth : Node) :
    should_connect L o oth o.connection_threshold (2 / 5) =
      SpecC6.score L o oth o.connection_threshold ∧
    0 ≤ (should_connect L o oth o.connection_threshold (2 / 5)).2 ∧
    (should_connect L o oth o.connection_threshold (2 / 5)).2 ≤ 1 ∧
    ((should_connect L o oth o.connection_threshold (2 / 5)).1 = true ↔
      o.connection_threshold ≤
        (should_connect L o oth o.connection_threshold (2 / 5)).2) := by
  have hprox : ∀ d r, proximityOf d r = SpecC6.proximity d r := by
    intro d r
    cases d with
    | none => cases r <;> rfl
    | some dq =>
      cases r with
      | none => rfl
      | some rq =>
        show max 0 (1 - dq / (rq * 2)) = max 0 (1 - dq / (2 * rq))
        rw [mul_comm]
  have hval : (should_connect L o oth o.connection_threshold (2 / 5)).2 =
      max 0 (min 1 ((1 - 2 / 5) * similarity_score L o.data oth.data +
        (2 / 5) * proximityOf (distFin L o oth) (chooseRadius o oth))) := rfl
  have hadm : (should_connect L o oth o.connection_threshold (2 / 5)).1 =
      decide (max 0 (min 1 ((1 - 2 / 5) * similarity_score L o.data oth.data +
        (2 / 5) * proximityOf (distFin L o oth) (chooseRadius o oth))) ≥
          o.connection_threshold) := rfl
  have hlin : ∀ ds p : ℚ,
      (1 - 2 / 5) * ds + 2 / 5 * p = 6 / 10 * ds + 4 / 10 * p := by
    intro ds p
    ring_nf
  refine ⟨?_, ?_, ?_, ?_⟩
  · unfold should_connect SpecC6.score SpecC6.clamp01
    have hrad : chooseRadius o oth = SpecC6.radius o oth := rfl
    simp only [hrad, hprox, hlin, clamp_comm]
  · rw [hval]
    exact le_max_left 0 _
  · rw [hval, clamp_comm]
    exact min_le_left 1 _
  · rw [hadm, hval]
    simp [ge_iff_le]

/-- C7 (code bug): the node moved along the x-axis only since its last
snapshot, yet `record_history` appends nothing, because
`(obj.pos != last["pos"]).all()` demands that every coordinate differ
(the specification's element-wise "any differ" rule requires a new
snapshot here). -/
theorem c7_pos_change_not_detected :
    nodeC7.pos.x ≠ hEntry0.pos.x ∧ nodeC7.pos.y = hEntry0.pos.y ∧
    nodeC7.pos.z = hEntry0.pos.z ∧
    nodeC7.history.length = 1 ∧
    (nodeC7.history.getLast?.map (fun e => e.pos)) = some ⟨0, 0, 0⟩ ∧
    _has_changed [nodeC7] nodeC7 = false ∧
    (record_history zeroLib [nodeC7] "t2" nodeC7).history.length = 1 := by
  refine ⟨by decide, by decide, by decide, by decide, by decide, ?_, ?_⟩
  · decide
  · decide

/-- C9 counterexample: with a colliding hash (CPython's randomized `hash`
is a model parameter; a collision on two cross-type values), the fallback
returns 1 for a structurally unequal pair the claim requires to score 0. -/
theorem c9_hash_collision_cex :
    uncoveredPair (PyVal.str "a") PyVal.none = true ∧
    eqVal (PyVal.str "a") PyVal.none = some false ∧
    similarity_score zeroLib (PyVal.str "a") PyVal.none = 1 := by
  refine ⟨by decide, by simp [eqVal], ?_⟩
  simp [similarity_score, eqVal, hashable, zeroLib]

/-- C9 (amended): on every pair not covered by the array, mapping,
text/bytes, or number rules, `similarity_score` returns 1 when the Python
comparison reports equality; when it reports inequality the result is 0
unless both operands are hashable and their hashes collide, in which case
it is 1; when the comparison itself raises, the result is 0.  The
function is total, so it never raises. -/
theorem c9_fallback_spec (L : PyLib) (a b : PyVal)
    (h : uncoveredPair a b = true) :
    (eqVal a b = some true → similarity_score L a b = 1) ∧
    (eqVal a b = some false →
      similarity_score L a b =
        (if hashable a && hashable b then
          (if L.hashInt a = L.hashInt b then 1 else 0) else 0)) ∧
    (eqVal a b = Option.none → similarity_score L a b = 0) := by
  cases a <;> cases b <;>
    simp_all [similarity_score, uncoveredPair, eqVal, hashable]

/-- C4 witness: a duplicate add is rejected unchanged, and an admission
into a fresh Block succeeds with `attempts` reset. -/
theorem c4_witness :
    add_neighbor nodeC2b 1 Option.none = (nodeC2b, false) ∧
    (add_neighbor (mkNode 1) 2 (some (1 / 2))).2 = true ∧
    (add_neighbor (mkNode 1) 2 (some (1 / 2))).1.attempts = 0 :=
  ⟨(c4_add_neighbor_spec nodeC2b 1 Option.none).2.1 (by decide),
    ((c4_add_neighbor_spec (mkNode 1) 2 (some (1 / 2))).2.2.2
      (by decide) (by decide) (by decide)).1,
    (((c4_add_neighbor_spec (mkNode 1) 2 (some (1 / 2))).2.2.2
      (by decide) (by decide) (by decide)).2.2).1⟩

/-- C9 witness: the amended fallback characterisation applied to the
uncovered pair `(1, "x")` under the trivial-hash library. -/
theorem c9_witness :
    similarity_score zeroLib (PyVal.num 1) (PyVal.str "x") =
      (if hashable (PyVal.num 1) && hashable (PyVal.str "x") then
        (if zeroLib.hashInt (PyVal.num 1) = zeroLib.hashInt (PyVal.str "x")
          then 1 else 0) else 0) :=
  (c9_fallback_spec zeroLib (PyVal.num 1) (PyVal.str "x")
    (by decide)).2.1 (by simp [eqVal])

/-! ## Lemmas about id sorting, hashing helpers and serialisation -/

theorem insertId_perm (x : Nat) (l : List Nat) :
    List.Perm (insertId x l) (x :: l) := by
  induction l with
  | nil => simp [insertId]
  | cons y ys ih =>
    by_cases h : y < x
    · simpa [insertId, h] using (ih.cons y).trans (List.Perm.swap x y ys)
    · simp [insertId, h]

theorem sortIds_perm (l : List Nat) : List.Perm (sortIds l) l := by
  induction l with
  | nil => simp [sortIds]
  | cons x xs ih =>
    exact (insertId_perm x (sortIds xs)).trans (ih.cons x)

theorem insertId_sorted {l : List Nat} (x : Nat)
    (h : l.Sorted (· ≤ ·)) : (insertId x l).Sorted (· ≤ ·) := by
  induction l with
  | nil => simp [insertId]
  | cons y ys ih =>
    rcases List.pairwise_cons.mp h with ⟨hy, htail⟩
    by_cases hlt : y < x
    · have := ih htail
      simp only [insertId, if_pos hlt]
      refine List.pairwise_cons.mpr ⟨?_, this⟩
      intro a ha
      have : a ∈ x :: ys := (insertId_perm x ys).mem_iff.mp ha
      rcases List.mem_cons.mp this with h' | h'
      · exact h' ▸ le_of_lt hlt
      · exact hy a h'
    · simp only [insertId, if_neg hlt]
      refine List.pairwise_cons.mpr ⟨?_, h⟩
      intro a ha
      rcases List.mem_cons.mp ha with h' | h'
      · exact h' ▸ le_of_not_lt hlt
      · exact le_trans (le_of_not_lt hlt) (hy a h')

theorem sortIds_sorted (l : List Nat) : (sortIds l).Sorted (· ≤ ·) := by
  induction l with
  | nil => simp [sortIds]
  | cons x xs ih => exact insertId_sorted x ih

theorem foldl_append_eq_flatMap {α β : Type} (g : α → List β) :
    ∀ (l : List α) (init : List β),
      l.foldl (fun acc a => acc ++ g a) init = init ++ l.flatMap g := by
  intro l
  induction l with
  | nil => intro init; simp
  | cons a rest ih =>
    intro init
    simp [List.foldl_cons, ih, List.flatMap_cons, List.append_assoc]

theorem getD_mem_of_default_mem {α : Type} {l : List α} (n : Nat) (d : α)
    (hd : d ∈ l) : l.getD n d ∈ l := by
  rw [List.getD_eq_getElem?_getD]
  cases hg : l[n]? with
  | none => simpa [hg] using hd
  | some c =>
    have hc : c ∈ l := List.getElem?_mem hg
    simpa [hg] using hc

theorem hexDigitChar_mem (n : Nat) :
    hexDigitChar n ∈ "0123456789abcdef".data := by
  unfold hexDigitChar
  exact getD_mem_of_default_mem n '0' (by decide)

theorem toHexLower_chars {bs : List Nat} {c : Char}
    (h : c ∈ (toHexLower bs).data) : c ∈ "0123456789abcdef".data := by
  unfold toHexLower at h
  simp only [String.data] at h
  rcases List.mem_flatMap.mp h with ⟨b, _, hb⟩
  rcases List.mem_cons.mp hb with rfl | hb'
  · exact hexDigitChar_mem _
  · rcases List.mem_cons.mp hb' with rfl | hb''
    · exact hexDigitChar_mem _
    · cases hb''

theorem ratEncode_injective : Function.Injective ratEncode := by
  intro a b h
  unfold ratEncode at h
  injection h with h1 h2
  injection h2 with h2 h3
  injection h3 with h3 _
  have hnum : a.num = b.num := by
    by_cases ha : a.num < 0 <;> by_cases hb : b.num < 0 <;>
      simp [ha, hb] at h2 <;> omega
  have : a = b := by
    refine Rat.ext hnum ?_
    exact h3
  exact this

theorem ratEncode_length (a b : ℚ) :
    (ratEncode a).length = (ratEncode b).length := rfl

theorem posBytes_injective {L : PyLib}
    (hinj : Function.Injective L.f64le)
    (hlen : ∀ a b : ℚ, (L.f64le a).length = (L.f64le b).length) :
    Function.Injective (posBytes L) := by
  intro p q h
  unfold posBytes at h
  rw [List.append_assoc, List.append_assoc] at h
  rcases List.append_inj h (hlen p.x q.x) with ⟨hx, h'⟩
  rcases List.append_inj h' (hlen p.y q.y) with ⟨hy, hz⟩
  cases p
  cases q
  simp only at hx hy hz
  rw [hinj hx, hinj hy, hinj hz]

/-- C3: `update_addr` sets exactly the `addr` field, to the lowercase
hexadecimal SHA-256 of, in order, the decimal string of `id`, the string
form of the payload, the raw IEEE-754 bytes of `pos`, and each neighbor's
`addr` in ascending order of neighbor id (the specification-side digest
input); the hex alphabet is lowercase; and with an injective fixed-width
float serialisation, any change of `pos` changes the digest input. -/
theorem c3_update_addr_spec (L : PyLib) (s : SimState) (obj : Node)
    (hinj : Function.Injective L.f64le)
    (hlen : ∀ a b : ℚ, (L.f64le a).length = (L.f64le b).length) :
    update_addr L s obj =
      { obj with addr := toHexLower (L.sha256 (specDigestInput L s obj)) } ∧
    (sortIds obj.neighbors).Sorted (· ≤ ·) ∧
    List.Perm (sortIds obj.neighbors) obj.neighbors ∧
    (∀ c ∈ (update_addr L s obj).addr.data, c ∈ "0123456789abcdef".data) ∧
    (∀ p q : Vec3, p ≠ q →
      specDigestInput L s { obj with pos := p } ≠
        specDigestInput L s { obj with pos := q }) := by
  have hin : addrInput L s obj = specDigestInput L s obj := by
    unfold addrInput specDigestInput neighborAddrBytes
    by_cases he : obj.neighbors.isEmpty
    · have : obj.neighbors = [] := List.isEmpty_iff.mp he
      simp [this, sortIds]
    · rw [if_neg he, foldl_append_eq_flatMap]
      simp
  refine ⟨?_, sortIds_sorted _, sortIds_perm _, ?_, ?_⟩
  · unfold update_addr
    rw [hin]
  · intro c hc
    have : (update_addr L s obj).addr =
        toHexLower (L.sha256 (addrInput L s obj)) := rfl
    rw [this] at hc
    exact toHexLower_chars hc
  · intro p q hpq heq
    unfold specDigestInput at heq
    simp only at heq
    rw [List.append_assoc, List.append_assoc, List.append_assoc,
      List.append_assoc] at heq
    have h1 := List.append_cancel_left heq
    have h2 := List.append_cancel_left h1
    have h3 : posBytes L p = posBytes L q := by
      have hplen : (posBytes L p).length = (posBytes L q).length := by
        unfold posBytes
        simp [List.length_append, hlen p.x q.x, hlen p.y q.y, hlen p.z q.z]
      exact (List.append_inj h2 hplen).1
    exact hpq (posBytes_injective hinj hlen h3)

/-- C3 witness: the characterisation applied to a concrete node under the
injective three-byte rational serialisation. -/
theorem c3_witness :
    update_addr encLib stateC2 (mkNode 1) =
      { mkNode 1 with
        addr := toHexLower (encLib.sha256
          (specDigestInput encLib stateC2 (mkNode 1))) } ∧
    (sortIds (mkNode 1).neighbors).Sorted (· ≤ ·) := by
  have h := c3_update_addr_spec encLib stateC2 (mkNode 1)
    ratEncode_injective ratEncode_length
  exact ⟨h.1, h.2.1⟩

/-- C8 counterexample: an anchor node created with the unvalidated gravity
override `25` keeps `gravity = 25 ∉ [0,20]` across a full tick, because
`apply_gravity` returns before the clamping recomputation for anchors. -/
theorem c8_anchor_gravity_cex :
    nodeC8.is_anchor = true ∧ nodeC8.gravity = 25 ∧
    ¬ nodeC8.gravity ≤ 20 ∧
    (getN (tick zeroLib stateC8 1 "t" 10) 1).map (fun n => n.gravity) =
      some 25 ∧
    (getN (apply_gravity zeroLib stateC8 1 10) 1).map (fun n => n.gravity) =
      some 25 := by
  refine ⟨rfl, rfl, by decide, by decide, by decide⟩

/-- Projection of a constant node replacement at its own id. -/
theorem getN_setN_const_gravity {s : SimState} {i : Nat} (v : Node)
    (hv : v.id = i) {n : Node} (hn : getN s i = some n) :
    (getN (setN s i (fun _ => v)) i).map (fun m => m.gravity) =
      some v.gravity := by
  rw [getN_setN_same (fun _ _ => hv), hn]
  rfl

/-- C8 (amended): `compute_gravity` always lands in `[0, 20]`, and
`apply_gravity` stores it for every non-anchor node, so non-anchor nodes
satisfy the gravity invariant at tick boundaries; an anchor node is
returned untouched, so an out-of-range creation override persists
indefinitely. -/
theorem c8_gravity_clamped (L : PyLib) (s : SimState) (i : Nat) (dt : ℚ)
    (n : Node) (hn : getN s i = some n) :
    (0 ≤ compute_gravity L n ∧ compute_gravity L n ≤ 20) ∧
    (n.is_anchor = true → apply_gravity L s i dt = s) ∧
    (n.is_anchor = false →
      (getN (apply_gravity L s i dt) i).map (fun m => m.gravity) =
        some (compute_gravity L n)) := by
  have hid : n.id = i := getN_id hn
  refine ⟨⟨le_max_left 0 _, ?_⟩, ?_, ?_⟩
  · exact max_le (by norm_num) (min_le_left 20 _)
  · intro ha
    unfold apply_gravity
    rw [hn]
    simp [ha]
  · intro ha
    have hcond : ¬ (n.is_anchor = true) := by
      rw [ha]
      exact Bool.false_ne_true
    simp only [apply_gravity, hn]
    rw [if_neg hcond]
    by_cases hz : L.sqrtQ (Vec3.sqNorm (local_gravity_vector L s
        { n with gravity := compute_gravity L n })) = 0
    · rw [if_pos hz]
      exact getN_setN_const_gravity _ hid hn
    · rw [if_neg hz]
      exact getN_setN_const_gravity _ hid hn

/-- C8 witness: the clamp bound and the anchor no-op, at the overridden
anchor state. -/
theorem c8_witness :
    (0 ≤ compute_gravity zeroLib nodeC8 ∧
      compute_gravity zeroLib nodeC8 ≤ 20) ∧
    apply_gravity zeroLib stateC8 1 10 = stateC8 := by
  have h := c8_gravity_clamped zeroLib stateC8 1 10 nodeC8 rfl
  exact ⟨h.1, h.2.1 rfl⟩

/-! ## Characterisations of the neighbor operations -/

theorem add_neighbor_self {o : Node} {j : Nat} {sc : Option ℚ}
    (h : j = o.id) : add_neighbor o j sc = (o, false) := by
  simp [add_neighbor, h]

theorem add_neighbor_dup {o : Node} {j : Nat} {sc : Option ℚ}
    (h : j ∈ o.neighbors) : add_neighbor o j sc = (o, false) := by
  by_cases h0 : j = o.id
  · simp [add_neighbor, h0]
  · simp [add_neighbor, h0, h]

theorem add_neighbor_full {o : Node} {j : Nat} {sc : Option ℚ}
    (h0 : j ≠ o.id) (h1 : j ∉ o.neighbors)
    (h2 : can_accept_more_neighbors o = false) :
    add_neighbor o j sc = (register_neighbor_attempt_failure o, false) := by
  simp [add_neighbor, h0, h1, h2]

theorem add_neighbor_success {o : Node} {j : Nat} {sc : Option ℚ}
    (h0 : j ≠ o.id) (h1 : j ∉ o.neighbors)
    (h2 : can_accept_more_neighbors o = true) :
    add_neighbor o j sc = (addedNode o j sc, true) := by
  simp [add_neighbor, h0, h1, h2, _record_neighbor_similarity, addedNode]

theorem add_neighborS_eq {s : SimState} {i : Nat} {o : Node}
    (ho : getN s i = some o) (j : Nat) (sc : Option ℚ) :
    add_neighborS s i j sc =
      (setN s i (fun _ => (add_neighbor o j sc).1), (add_neighbor o j sc).2) := by
  unfold add_neighborS
  rw [ho]

theorem evict_not_permissive {s : SimState} {i : Nat} {o : Node}
    (ho : getN s i = some o) (hp : o.permissive_mode = false)
    (sc : Option ℚ) : evict_weakest_neighbor s i sc = (s, Option.none) := by
  unfold evict_weakest_neighbor
  rw [ho]
  simp [hp]

theorem evict_empty {s : SimState} {i : Nat} {o : Node}
    (hd : IdsNodup s) (ho : getN s i = some o)
    (hp : o.permissive_mode = true)
    (hs : o.neighbors_by_similarity = []) (sc : Option ℚ) :
    evict_weakest_neighbor s i sc = (s, Option.none) := by
  unfold evict_weakest_neighbor
  rw [ho]
  simp only [hp, not_true, if_false, Bool.not_true]
  unfold lowest_similarity_neighbor
  rw [hs]
  simpa using congrArg (fun t => (t, (Option.none : Option (ℚ × Nat))))
    (setN_self hd ho)

theorem evict_success {s : SimState} {i : Nat} {o : Node}
    {ws : ℚ} {wn : Nat}
    (ho : getN s i = some o) (hp : o.permissive_mode = true)
    (hhead : (sortPairs o.neighbors_by_similarity).head? = some (ws, wn))
    {sc : ℚ} (hlt : ws < sc) :
    evict_weakest_neighbor s i (some sc) =
      (remove_neighborS (remove_neighborS
        (setN s i (fun _ => sortedSimNode o)) i wn) wn i, some (ws, wn)) := by
  have hne : o.neighbors_by_similarity ≠ [] := by
    intro h
    rw [h] at hhead
    simp [sortPairs] at hhead
  unfold evict_weakest_neighbor
  rw [ho]
  simp only [hp, Bool.not_true, if_false]
  unfold lowest_similarity_neighbor
  cases hsim : o.neighbors_by_similarity with
  | nil => exact absurd hsim hne
  | cons p rest =>
    rw [← hsim]
    simp only [hsim]
    rw [← hsim, hhead]
    simp only [Option.getD_some]
    rw [if_neg (not_le.mpr hlt)]
    rfl

theorem evict_too_weak {s : SimState} {i : Nat} {o : Node}
    {ws : ℚ} {wn : Nat}
    (ho : getN s i = some o) (hp : o.permissive_mode = true)
    (hhead : (sortPairs o.neighbors_by_similarity).head? = some (ws, wn))
    {sc : ℚ} (hge : sc ≤ ws) :
    evict_weakest_neighbor s i (some sc) =
      (setN s i (fun _ => sortedSimNode o), Option.none) := by
  have hne : o.neighbors_by_similarity ≠ [] := by
    intro h
    rw [h] at hhead
    simp [sortPairs] at hhead
  unfold evict_weakest_neighbor
  rw [ho]
  simp only [hp, Bool.not_true, if_false]
  unfold lowest_similarity_neighbor
  cases hsim : o.neighbors_by_similarity with
  | nil => exact absurd hsim hne
  | cons p rest =>
    rw [← hsim]
    simp only [hsim]
    rw [← hsim, hhead]
    simp only [Option.getD_some]
    rw [if_pos hge]
    rfl

theorem addedNode_id (o : Node) (j : Nat) (sc : Option ℚ) :
    (addedNode o j sc).id = o.id := rfl

theorem sortedSimNode_id (o : Node) : (sortedSimNode o).id = o.id := rfl

theorem remove_neighbor_id (o : Node) (j : Nat) :
    ((remove_neighbor o j).1).id = o.id := by
  unfold remove_neighbor
  by_cases h : j ∈ o.neighbors <;> simp [h]

/-- Steps 7–9 on the success path: under well-formed preconditions both
adds succeed and the final state is the double `setN` plus the history
event. -/
theorem negotiateAdds_success {s : SimState} {objId candId : Nat}
    {o c : Node} (ho : getN s objId = some o) (hc : getN s candId = some c)
    (hne : candId ≠ objId) (hnmo : candId ∉ o.neighbors)
    (hnmc : objId ∉ c.neighbors)
    (hao : can_accept_more_neighbors o = true)
    (hac : can_accept_more_neighbors c = true)
    (score : ℚ) (eS eC : Option (ℚ × Nat)) :
    negotiateAdds s objId candId score eS eC =
      recordEvent (setN (setN s objId (fun _ => addedNode o candId (some score)))
        candId (fun _ => addedNode c objId (some score))) objId candId score := by
  have hoid : o.id = objId := getN_id ho
  have hcid : c.id = candId := getN_id hc
  have hne1 : candId ≠ o.id := by rw [hoid]; exact hne
  have hne2 : objId ≠ c.id := by rw [hcid]; exact fun h => hne h.symm
  have hadd1 := @add_neighbor_success o candId (some score) hne1 hnmo hao
  have hadd2 := @add_neighbor_success c objId (some score) hne2 hnmc hac
  unfold negotiateAdds
  rw [add_neighborS_eq ho candId (some score), hadd1]
  simp only [Bool.not_true, if_false, Bool.false_eq_true]
  have hc1 : getN (setN s objId (fun _ => addedNode o candId (some score)))
      candId = some c := by
    rw [getN_setN_ne (fun m hm => by rw [addedNode_id, hoid]) hne]
    exact hc
  rw [add_neighborS_eq hc1 objId (some score), hadd2]
  simp

/-- Step 5 when the candidate has room: fall through to the adds. -/
theorem negotiateCand_notfull {s : SimState} {candId : Nat} {c : Node}
    (hc : getN s candId = some c)
    (hac : can_accept_more_neighbors c = true)
    (objId : Nat) (score : ℚ) (eS : Option (ℚ × Nat)) :
    negotiateCand s objId candId score eS =
      negotiateAdds s objId candId score eS Option.none := by
  unfold negotiateCand
  rw [hc]
  simp [hac]

/-- The head of one discovery iteration when the initiator has room and
the candidate is admissible: reduce to the candidate-side negotiation. -/
theorem discoverStep_notfull_ok {L : PyLib} {s : SimState}
    {objId candId : Nat} {o c : Node}
    (ho : getN s objId = some o) (hc : getN s candId = some c)
    (hne : candId ≠ objId) (hnm : candId ∉ o.neighbors)
    (hacc : can_accept_more_neighbors o = true)
    (hok : (should_connect L o c o.connection_threshold (2 / 5)).1 = true) :
    discoverStep L s objId candId =
      negotiateCand s objId candId
        (should_connect L o c o.connection_threshold (2 / 5)).2
        Option.none := by
  unfold discoverStep
  rw [ho, hc]
  simp [hne, hnm, hacc, hok]

theorem getN_recordEvent_ne {s : SimState} {i j k : Nat} {sc : ℚ}
    (hk : k ≠ i) : getN (recordEvent s i j sc) k = getN s k := by
  unfold recordEvent
  refine getN_setN_ne ?_ hk
  intro m hm
  cases hh : m.history with
  | nil => simpa [hh] using hm
  | cons e rest => simpa [hh] using hm

theorem recordEvent_preserves {α : Type} {s : SimState} {i j : Nat} {sc : ℚ}
    (proj : Node → α)
    (hproj : ∀ (n : Node) (h : List HEntry),
      proj { n with history := h } = proj n) :
    (getN (recordEvent s i j sc) i).map proj = (getN s i).map proj := by
  unfold recordEvent
  rw [getN_setN_same ?hf]
  case hf =>
    intro m hm
    cases hh : m.history with
    | nil => simpa [hh] using hm
    | cons e rest => simpa [hh] using hm
  cases hg : getN s i with
  | none => rfl
  | some n =>
    simp only [Option.map_map, Option.map_some]
    cases hh : n.history with
    | nil => simp [hh]
    | cons e rest => simp [hh, hproj]

/-- C10: a Block (threshold 0.4) initiating toward a Point (threshold 0.8)
at score 0.4 forms a reciprocal link: discovery admits on the initiator's
`connection_threshold` only, and `add_neighbor` performs no threshold
check on the receiving side, so the Point acquires a neighbor whose score
is strictly below its own `connection_threshold`. -/
theorem c10_one_sided_threshold (L : PyLib) (h0 : L.sqrtQ 0 = 0) :
    (should_connect L nodeC10a nodeC10b nodeC10a.connection_threshold
      (2 / 5)).2 = 2 / 5 ∧
    nodeC10b.connection_threshold = 4 / 5 ∧ (2 / 5 : ℚ) < 4 / 5 ∧
    (getN (discoverStep L stateC10 1 2) 1).map (fun n => n.neighbors) =
      some [2] ∧
    (getN (discoverStep L stateC10 1 2) 2).map (fun n => n.neighbors) =
      some [1] ∧
    (getN (discoverStep L stateC10 1 2) 2).map
      (fun n => n.neighbors_by_similarity) = some [(2 / 5, 1)] := by
  have hdist : distance_to L nodeC10a nodeC10b = 0 := by
    show L.sqrtQ (Vec3.sqNorm (Vec3.sub nodeC10a.pos nodeC10b.pos)) = 0
    have hz : Vec3.sqNorm (Vec3.sub nodeC10a.pos nodeC10b.pos) = 0 := by
      norm_num [nodeC10a, nodeC10b, mkNode, Vec3.sub, Vec3.sqNorm]
    rw [hz, h0]
  have hsc : should_connect L nodeC10a nodeC10b
      nodeC10a.connection_threshold (2 / 5) = (true, 2 / 5) := by
    unfold should_connect distFin
    rw [hdist]
    norm_num [similarity_score, nodeC10a, nodeC10b, mkNode, chooseRadius,
      proximityOf]
  have hg1 : getN stateC10 1 = some nodeC10a := rfl
  have hg2 : getN stateC10 2 = some nodeC10b := rfl
  have hfin : discoverStep L stateC10 1 2 =
      recordEvent (setN (setN stateC10 1
          (fun _ => addedNode nodeC10a 2 (some (2 / 5)))) 2
          (fun _ => addedNode nodeC10b 1 (some (2 / 5)))) 1 2 (2 / 5) := by
    rw [discoverStep_notfull_ok hg1 hg2 (by decide) (by decide) (by decide)
      (by rw [hsc])]
    rw [hsc]
    rw [negotiateCand_notfull hg2 (by decide) 1 (2 / 5) Option.none]
    rw [negotiateAdds_success hg1 hg2 (by decide) (by decide) (by decide)
      (by decide) (by decide) (2 / 5) Option.none Option.none]
  have hid2 : ∀ m : Node, m.id = 2 →
      ((fun _ => addedNode nodeC10b 1 (some (2 / 5))) m).id = 2 := by
    intro m _
    rfl
  have hid1 : ∀ m : Node, m.id = 1 →
      ((fun _ => addedNode nodeC10a 2 (some (2 / 5))) m).id = 1 := by
    intro m _
    rfl
  refine ⟨by rw [hsc], by norm_num [nodeC10b, mkNode], by norm_num,
    ?_, ?_, ?_⟩
  · rw [hfin, recordEvent_preserves (fun n => n.neighbors) (fun n h => rfl),
      getN_setN_ne hid2 (by decide), getN_setN_same hid1]
    rfl
  · rw [hfin, getN_recordEvent_ne (by decide),
      getN_setN_same hid2, getN_setN_ne hid1 (by decide)]
    rfl
  · rw [hfin, getN_recordEvent_ne (by decide),
      getN_setN_same hid2, getN_setN_ne hid1 (by decide)]
    show some (sortPairs ([] ++ [((2 : ℚ) / 5, 1)])) = some [(2 / 5, 1)]
    rfl

/-- C10 witness: the scenario under a concrete square root. -/
theorem c10_witness :
    (getN (discoverStep zeroLib stateC10 1 2) 2).map
      (fun n => n.neighbors_by_similarity) = some [(2 / 5, 1)] :=
  (c10_one_sided_threshold zeroLib rfl).2.2.2.2.2

theorem sortPairs_append_ne_nil (l : List (ℚ × Nat)) (x : ℚ × Nat) :
    (sortPairs (l ++ [x])).isEmpty = false := by
  have hlen : (sortPairs (l ++ [x])).length = l.length + 1 := by
    rw [(sortPairs_perm (l ++ [x])).length_eq]
    simp
  cases hs : sortPairs (l ++ [x]) with
  | nil => rw [hs] at hlen; cases hlen
  | cons a rest => rfl

/-- The reciprocal-refusal path of one discovery iteration: the candidate
already lists the initiator, both sides have room, the pair is admissible,
and the initiator's similarity index is sorted and free of the candidate.
The final state replaces the initiator by itself with `attempts := 0` and
`permissive_mode := false`, and registers a failed attempt on the
candidate. -/
theorem discoverStep_recip_refused (L : PyLib) {s : SimState}
    {objId candId : Nat} {o c : Node} (hd : IdsNodup s)
    (ho : getN s objId = some o) (hc : getN s candId = some c)
    (hne : candId ≠ objId) (hnm : candId ∉ o.neighbors)
    (hacc : can_accept_more_neighbors o = true)
    (hok : (should_connect L o c o.connection_threshold (2 / 5)).1 = true)
    (hcacc : can_accept_more_neighbors c = true)
    (hrecip : objId ∈ c.neighbors)
    (hsorted : PairsSorted o.neighbors_by_similarity)
    (hfree : ∀ p ∈ o.neighbors_by_similarity, p.2 ≠ candId) :
    discoverStep L s objId candId =
      setN (setN s objId
          (fun _ => { o with attempts := 0, permissive_mode := false }))
        candId register_neighbor_attempt_failure := by
  have hoid : o.id = objId := getN_id ho
  have hcid : c.id = candId := getN_id hc
  have hne1 : candId ≠ o.id := by rw [hoid]; exact hne
  set v := (should_connect L o c o.connection_threshold (2 / 5)).2 with hv
  set A := addedNode o candId (some v) with hA
  have hidA : ∀ m : Node, m.id = objId → ((fun _ => A) m).id = objId := by
    intro m _
    rw [hA, addedNode_id, hoid]
  rw [discoverStep_notfull_ok ho hc hne hnm hacc hok,
    negotiateCand_notfull hc hcacc objId v Option.none]
  unfold negotiateAdds
  rw [add_neighborS_eq ho candId (some v),
    add_neighbor_success hne1 hnm hacc, ← hA]
  simp only [Bool.not_true, if_false, Bool.false_eq_true]
  have hc1 : getN (setN s objId (fun _ => A)) candId = some c := by
    rw [getN_setN_ne hidA hne]
    exact hc
  rw [add_neighborS_eq hc1 objId (some v), add_neighbor_dup hrecip]
  have hd1 : IdsNodup (setN s objId (fun _ => A)) := IdsNodup_setN hidA hd
  rw [setN_self hd1 hc1]
  have hR : (remove_neighbor A candId).1 =
      { o with attempts := 0, permissive_mode := false } := by
    have h1 : (o.neighbors ++ [candId]).erase candId = o.neighbors := by
      rw [List.erase_append_right _ hnm, List.erase_cons_head,
        List.append_nil]
    have hmem : candId ∈ A.neighbors := by
      rw [hA]
      unfold addedNode
      simp
    have h2 : A.neighbors_by_similarity.filter (fun pr => pr.2 != candId) =
        o.neighbors_by_similarity := by
      rw [hA]
      unfold addedNode
      simp only [Option.getD_some]
      exact sortPairs_append_filter hsorted hfree
    have h3 : A.neighbors_by_similarity.isEmpty = false := by
      rw [hA]
      unfold addedNode
      simp only [Option.getD_some]
      exact sortPairs_append_ne_nil _ _
    unfold remove_neighbor
    rw [if_pos hmem, h3]
    simp only [Bool.false_eq_true, if_false, h2]
    rw [hA]
    unfold addedNode
    simp only [h1]
  simp only [Bool.not_false, if_true, Bool.false_eq_true, if_false,
    Bool.not_true, not_false_eq_true, ite_true, ite_false, not_true,
    not_true_eq_false, restoreOpt, remove_neighborS, register_failureS]
  rw [setN_setN hidA]
  simp only [hR]

/-- C2 counterexample: pre-state `stateC2` reaches the reciprocal-refusal
path (node 2 already lists node 1, so `add_neighbor(cand, obj)` returns
false); afterwards the initiator's neighbor lists are restored and the
refusing side's `attempts` is incremented, but the initiator's `attempts`
counter — `1` before the pass — ends at `0`: the successful first add
reset it and the rollback does not restore it, so the pre-state is not
restored exactly. -/
theorem c2_initiator_attempts_cex :
    nodeC2a.attempts = 1 ∧
    (add_neighbor nodeC2b 1 (some 1)).2 = false ∧
    (getN (discoverStep zeroLib stateC2 1 2) 1).map (fun n => n.attempts) =
      some 0 ∧
    (getN (discoverStep zeroLib stateC2 1 2) 1).map (fun n => n.neighbors) =
      some [] ∧
    (getN (discoverStep zeroLib stateC2 1 2) 2).map (fun n => n.attempts) =
      some 1 ∧
    (getN (discoverStep zeroLib stateC2 1 2) 2).map (fun n => n.neighbors) =
      some [1] := by
  have hg1 : getN stateC2 1 = some nodeC2a := rfl
  have hg2 : getN stateC2 2 = some nodeC2b := rfl
  have hok : (should_connect zeroLib nodeC2a nodeC2b
      nodeC2a.connection_threshold (2 / 5)).1 = true := by
    refine decide_eq_true ?_
    exact le_max_left 0 _
  have hfin := discoverStep_recip_refused zeroLib (by decide) hg1 hg2
    (by decide) (by decide) (by decide) hok (by decide) (by decide)
    (by decide) (by decide)
  have hreg : ∀ m : Node, m.id = 2 →
      (register_neighbor_attempt_failure m).id = 2 := by
    intro m hm
    rw [register_id]
    exact hm
  have hidR : ∀ m : Node, m.id = 1 →
      ((fun _ => { nodeC2a with
        attempts := 0, permissive_mode := false }) m).id = 1 := by
    intro m _
    rfl
  have h2 : getN (discoverStep zeroLib stateC2 1 2) 2 =
      some (register_neighbor_attempt_failure nodeC2b) := by
    rw [hfin, getN_setN_same hreg, getN_setN_ne hidR (by decide), hg2]
    rfl
  have h1 : getN (discoverStep zeroLib stateC2 1 2) 1 =
      some { nodeC2a with attempts := 0, permissive_mode := false } := by
    rw [hfin, getN_setN_ne hreg (by decide), getN_setN_same hidR, hg1]
    rfl
  refine ⟨rfl, by decide, ?_, ?_, ?_, ?_⟩
  · rw [h1]
    rfl
  · rw [h1]
    rfl
  · rw [h2]
    show some ((register_neighbor_attempt_failure nodeC2b).attempts) = some 1
    rw [register_attempts]
    rfl
  · rw [h2]
    show some ((register_neighbor_attempt_failure nodeC2b).neighbors) =
      some [1]
    rw [register_neighbors]
    rfl

/-- C2 (amended): when the first add succeeds and the reciprocal add
refuses (with both sides unsaturated, so no evictions are in play), the
rollback restores the initiator's neighbor list and similarity index
exactly (given a sorted, candidate-free index), leaves every other node
untouched, and increments `attempts` on the refusing side only via its
failure registration — but the initiator's `attempts` and
`permissive_mode` are left at the `0` / `false` the successful add wrote,
not at their pre-state values. -/
theorem c2_rollback_amended (L : PyLib) {s : SimState}
    {objId candId : Nat} {o c : Node} (hd : IdsNodup s)
    (ho : getN s objId = some o) (hc : getN s candId = some c)
    (hne : candId ≠ objId) (hnm : candId ∉ o.neighbors)
    (hacc : can_accept_more_neighbors o = true)
    (hok : (should_connect L o c o.connection_threshold (2 / 5)).1 = true)
    (hcacc : can_accept_more_neighbors c = true)
    (hrecip : objId ∈ c.neighbors)
    (hsorted : PairsSorted o.neighbors_by_similarity)
    (hfree : ∀ p ∈ o.neighbors_by_similarity, p.2 ≠ candId) :
    (getN (discoverStep L s objId candId) objId).map
      (fun n => n.neighbors) = some o.neighbors ∧
    (getN (discoverStep L s objId candId) objId).map
      (fun n => n.neighbors_by_similarity) =
        some o.neighbors_by_similarity ∧
    (getN (discoverStep L s objId candId) objId).map
      (fun n => n.attempts) = some 0 ∧
    (getN (discoverStep L s objId candId) objId).map
      (fun n => n.permissive_mode) = some false ∧
    getN (discoverStep L s objId candId) candId =
      some (register_neighbor_attempt_failure c) ∧
    (∀ k, k ≠ objId → k ≠ candId →
      getN (discoverStep L s objId candId) k = getN s k) := by
  have hoid : o.id = objId := getN_id ho
  have hfin := discoverStep_recip_refused L hd ho hc hne hnm hacc hok
    hcacc hrecip hsorted hfree
  have hidR : ∀ m : Node, m.id = objId →
      ((fun _ => { o with attempts := 0, permissive_mode := false }) m).id
        = objId := by
    intro m _
    simpa using hoid
  have hreg : ∀ m : Node, m.id = candId →
      (register_neighbor_attempt_failure m).id = candId := by
    intro m hm
    rw [register_id]
    exact hm
  have hobj : getN (discoverStep L s objId candId) objId =
      some { o with attempts := 0, permissive_mode := false } := by
    rw [hfin, getN_setN_ne hreg (fun h => hne h.symm),
      getN_setN_same hidR, ho]
    rfl
  refine ⟨?_, ?_, ?_, ?_, ?_, ?_⟩
  · rw [hobj]
    rfl
  · rw [hobj]
    rfl
  · rw [hobj]
    rfl
  · rw [hobj]
    rfl
  · rw [hfin, getN_setN_same hreg, getN_setN_ne hidR hne, hc]
    rfl
  · intro k hk1 hk2
    rw [hfin, getN_setN_ne hreg hk2, getN_setN_ne hidR hk1]

/-- C2 witness: the amended rollback characterisation at the concrete
refusal state. -/
theorem c2_witness :
    getN (discoverStep zeroLib stateC2 1 2) 2 =
      some (register_neighbor_attempt_failure nodeC2b) := by
  have hg1 : getN stateC2 1 = some nodeC2a := rfl
  have hg2 : getN stateC2 2 = some nodeC2b := rfl
  have hok : (should_connect zeroLib nodeC2a nodeC2b
      nodeC2a.connection_threshold (2 / 5)).1 = true := by
    refine decide_eq_true ?_
    exact le_max_left 0 _
  exact (c2_rollback_amended zeroLib (by decide) hg1 hg2 (by decide)
    (by decide) (by decide) hok (by decide) (by decide) (by decide)
    (by decide)).2.2.2.2.1

/-! ## Preservation of the permissive-mode invariant -/

theorem permInv_of_fields {n n' : Node} (ha : n'.attempts = n.attempts)
    (hp : n'.permissive_mode = n.permissive_mode)
    (hl : n'.max_degree = n.max_degree) (h : PermInv n) : PermInv n' := by
  intro hpm
  rcases h (hp ▸ hpm) with ⟨lim, hlim, hnz, hge⟩
  refine ⟨lim, ?_, hnz, ?_⟩
  · unfold Node.degree_limit at hlim ⊢
    rw [hl]
    exact hlim
  · rw [ha]
    exact hge

theorem permInv_update (n : Node) (h : PermInv n) :
    PermInv (_update_permissive_state n) := by
  unfold _update_permissive_state
  by_cases hp : n.permissive_mode
  · rw [if_pos hp]
    exact h
  · rw [if_neg hp]
    split
    · exact h
    · rename_i t ht
      split
      · rename_i hge
        intro _
        unfold _permissive_threshold at ht
        split at ht
        · cases ht
        · rename_i lim hd
          split at ht
          · cases ht
          · rename_i hz
            have htv : t = (lim : ℚ) * 2 := by
              injection ht with h'
              exact h'.symm
            refine ⟨lim, ?_, hz, ?_⟩
            · unfold Node.degree_limit at hd ⊢
              exact hd
            · show (n.attempts : ℚ) ≥ 2 * (lim : ℚ)
              rw [mul_comm]
              rw [htv] at hge
              exact hge
      · exact h

theorem permInv_register (n : Node) (h : PermInv n) :
    PermInv (register_neighbor_attempt_failure n) := by
  unfold register_neighbor_attempt_failure
  refine permInv_update _ ?_
  intro hpm
  rcases h hpm with ⟨lim, hlim, hnz, hge⟩
  refine ⟨lim, hlim, hnz, ?_⟩
  show ((n.attempts + 1 : Int) : ℚ) ≥ 2 * (lim : ℚ)
  push_cast
  linarith

theorem permInv_add (o : Node) (j : Nat) (sc : Option ℚ) (h : PermInv o) :
    PermInv (add_neighbor o j sc).1 := by
  by_cases h0 : j = o.id
  · rw [add_neighbor_self h0]
    exact h
  · by_cases h1 : j ∈ o.neighbors
    · rw [add_neighbor_dup h1]
      exact h
    · cases h2 : can_accept_more_neighbors o with
      | false =>
        rw [add_neighbor_full h0 h1 h2]
        exact permInv_register o h
      | true =>
        rw [add_neighbor_success h0 h1 h2]
        intro hpm
        exact absurd hpm (by simp [addedNode])

theorem permInv_remove (o : Node) (j : Nat) (h : PermInv o) :
    PermInv (remove_neighbor o j).1 := by
  refine permInv_of_fields ?_ ?_ ?_ h <;>
    (unfold remove_neighbor; by_cases hm : j ∈ o.neighbors <;> simp [hm])

theorem permInvState_setN {s : SimState} {i : Nat} {f : Node → Node}
    (hf : ∀ n, PermInv n → PermInv (f n)) (h : PermInvState s) :
    PermInvState (setN s i f) := by
  intro n' hn'
  rcases mem_setN.mp hn' with ⟨n, hn, rfl⟩
  by_cases hni : (n.id == i) = true
  · simpa [hni] using hf n (h n hn)
  · simpa [hni] using h n hn

theorem permInvState_addS {s : SimState} (i j : Nat)
    (sc : Option ℚ) (h : PermInvState s) :
    PermInvState (add_neighborS s i j sc).1 := by
  unfold add_neighborS
  cases hg : getN s i with
  | none => exact h
  | some o =>
    exact permInvState_setN (fun _ _ => permInv_add o j sc
      (h o (getN_mem hg))) h

theorem permInvState_failS {s : SimState} (i : Nat) (h : PermInvState s) :
    PermInvState (register_failureS s i) :=
  permInvState_setN (fun n hn => permInv_register n hn) h

theorem permInvState_removeS {s : SimState} (i j : Nat)
    (h : PermInvState s) : PermInvState (remove_neighborS s i j) :=
  permInvState_setN (fun n hn => permInv_remove n j hn) h

theorem permInvState_evict {s : SimState} (i : Nat) (sc : Option ℚ)
    (h : PermInvState s) :
    PermInvState (evict_weakest_neighbor s i sc).1 := by
  unfold evict_weakest_neighbor
  cases hg : getN s i with
  | none => exact h
  | some o =>
    by_cases hp : o.permissive_mode
    · simp only [hp, Bool.not_true, if_false]
      have h1 : PermInvState (setN s i
          (fun _ => (lowest_similarity_neighbor o).1)) := by
        refine permInvState_setN (fun _ _ => ?_) h
        have ho : PermInv o := h o (getN_mem hg)
        unfold lowest_similarity_neighbor
        cases hs : o.neighbors_by_similarity with
        | nil => exact ho
        | cons p rest =>
          refine permInv_of_fields ?_ ?_ ?_ ho <;> rfl
      cases hw : (lowest_similarity_neighbor o).2 with
      | none => simpa [hw] using h1
      | some pr =>
        rcases pr with ⟨ws, wn⟩
        simp only [hw]
        by_cases hle : sc.getD 0 ≤ ws
        · simpa [hle] using h1
        · simp only [hle, if_false]
          exact permInvState_removeS _ _ (permInvState_removeS _ _ h1)
    · simp [hp]
      exact h

theorem permInvState_restore {s : SimState} (i j : Nat) (sc : Option ℚ)
    (h : PermInvState s) : PermInvState (restore_neighbor s i j sc) := by
  unfold restore_neighbor
  exact permInvState_addS j i sc (permInvState_addS i j sc h)

theorem permInvState_restoreOpt {s : SimState} (i : Nat)
    (ev : Option (ℚ × Nat)) (h : PermInvState s) :
    PermInvState (restoreOpt s i ev) := by
  unfold restoreOpt
  cases ev with
  | none => exact h
  | some pr => exact permInvState_restore _ _ _ h

theorem permInvState_recordEvent {s : SimState} (i j : Nat) (sc : ℚ)
    (h : PermInvState s) : PermInvState (recordEvent s i j sc) := by
  unfold recordEvent
  refine permInvState_setN (fun n hn => ?_) h
  cases hh : n.history with
  | nil => exact hn
  | cons e rest =>
    refine permInv_of_fields ?_ ?_ ?_ hn <;> simp [hh]

theorem permInvState_negotiateAdds {s : SimState} (i j : Nat) (sc : ℚ)
    (eS eC : Option (ℚ × Nat)) (h : PermInvState s) :
    PermInvState (negotiateAdds s i j sc eS eC) := by
  unfold negotiateAdds
  try dsimp only
  split
  · exact permInvState_failS _ (permInvState_restoreOpt _ _
      (permInvState_restoreOpt _ _ (permInvState_addS i j (some sc) h)))
  · split
    · exact permInvState_failS _ (permInvState_restoreOpt _ _
        (permInvState_restoreOpt _ _ (permInvState_removeS _ _
          (permInvState_addS j i (some sc)
            (permInvState_addS i j (some sc) h)))))
    · exact permInvState_recordEvent _ _ _
        (permInvState_addS j i (some sc)
          (permInvState_addS i j (some sc) h))

theorem permInvState_negotiateCand {s : SimState} (i j : Nat) (sc : ℚ)
    (eS : Option (ℚ × Nat)) (h : PermInvState s) :
    PermInvState (negotiateCand s i j sc eS) := by
  unfold negotiateCand
  try dsimp only
  split
  · exact h
  · split
    · exact permInvState_failS _ (permInvState_restoreOpt _ _ h)
    · split
      · split
        · exact permInvState_failS _ (permInvState_restoreOpt _ _
            (permInvState_evict _ _ h))
        · exact permInvState_negotiateAdds _ _ _ _ _
            (permInvState_evict _ _ h)
      · exact permInvState_negotiateAdds _ _ _ _ _ h

theorem permInvState_discoverStep (L : PyLib) {s : SimState} (i j : Nat)
    (h : PermInvState s) : PermInvState (discoverStep L s i j) := by
  unfold discoverStep
  try dsimp only
  split <;> try exact h
  split
  · exact h
  · split
    · exact h
    · split
      · exact permInvState_failS _ h
      · split
        · exact h
        · split
          · split
            · exact permInvState_evict _ _ h
            · exact permInvState_negotiateCand _ _ _ _
                (permInvState_evict _ _ h)
          · exact permInvState_negotiateCand _ _ _ _ h

theorem permInvState_discover (L : PyLib) {s : SimState} (i : Nat)
    (h : PermInvState s) :
    PermInvState (discover_and_negotiate L s i) := by
  unfold discover_and_negotiate
  generalize s.map (fun n => n.id) = cands
  induction cands generalizing s with
  | nil => exact h
  | cons c rest ih =>
    exact ih (permInvState_discoverStep L i c h)

theorem permInvState_gravity (L : PyLib) {s : SimState} (i : Nat) (dt : ℚ)
    (h : PermInvState s) : PermInvState (apply_gravity L s i dt) := by
  unfold apply_gravity
  split
  · exact h
  · rename_i o hg
    split
    · exact h
    · try dsimp only
      split
      · refine permInvState_setN (fun _ _ => ?_) h
        exact permInv_of_fields rfl rfl rfl (h o (getN_mem hg))
      · refine permInvState_setN (fun _ _ => ?_) h
        exact permInv_of_fields rfl rfl rfl (h o (getN_mem hg))

theorem record_history_fields (L : PyLib) (s : SimState) (ts : String)
    (n : Node) :
    (record_history L s ts n).attempts = n.attempts ∧
    (record_history L s ts n).permissive_mode = n.permissive_mode ∧
    (record_history L s ts n).max_degree = n.max_degree := by
  unfold record_history
  try dsimp only
  split <;> split <;> exact ⟨rfl, rfl, rfl⟩

theorem permInvState_record (L : PyLib) {s : SimState} (i : Nat)
    (ts : String) (h : PermInvState s) :
    PermInvState (setN s i (fun n => record_history L s ts n)) := by
  refine permInvState_setN (fun n hn => ?_) h
  rcases record_history_fields L s ts n with ⟨h1, h2, h3⟩
  exact permInv_of_fields h1 h2 h3 hn

theorem permInvState_tick (L : PyLib) {s : SimState} (i : Nat)
    (ts : String) (dt : ℚ) (h : PermInvState s) :
    PermInvState (tick L s i ts dt) := by
  unfold tick
  exact permInvState_gravity L i dt
    (permInvState_discover L i (permInvState_record L i ts h))

theorem permInvState_runOp (L : PyLib) {s : SimState} (op : SimOp)
    (h : PermInvState s) : PermInvState (runOp L s op) := by
  cases op with
  | add i j sc => exact permInvState_addS i j sc h
  | remove i j => exact permInvState_removeS i j h
  | fail i => exact permInvState_failS i h
  | evict i sc => exact permInvState_evict i sc h
  | restore i j sc => exact permInvState_restore i j sc h
  | discover i => exact permInvState_discover L i h
  | gravity i dt => exact permInvState_gravity L i dt h
  | record i ts => exact permInvState_record L i ts h
  | tickOp i ts dt => exact permInvState_tick L i ts dt h

theorem permInvState_runOps (L : PyLib) {s : SimState} (ops : List SimOp)
    (h : PermInvState s) : PermInvState (runOps L s ops) := by
  unfold runOps
  induction ops generalizing s with
  | nil => exact h
  | cons op rest ih => exact ih (permInvState_runOp L op h)

theorem permissive_threshold_some_iff (m : Node) (t : ℚ) :
    _permissive_threshold m = some t ↔
      ∃ lim, m.degree_limit = some lim ∧ lim ≠ 0 ∧ t = (lim : ℚ) * 2 := by
  unfold _permissive_threshold
  cases hd : m.degree_limit with
  | none => simp
  | some lim =>
    by_cases hz : lim = 0
    · subst hz
      simp
    · simp [hz, eq_comm]

theorem update_permissive_pm_iff (m : Node) :
    (_update_permissive_state m).permissive_mode = true ↔
      (m.permissive_mode = true ∨ ∃ lim, m.degree_limit = some lim ∧
        lim ≠ 0 ∧ (m.attempts : ℚ) ≥ (lim : ℚ) * 2) := by
  unfold _update_permissive_state
  by_cases hp : m.permissive_mode = true
  · simp [hp]
  · rw [if_neg hp]
    cases ht : _permissive_threshold m with
    | none =>
      have hmm : (∃ lim, m.degree_limit = some lim ∧ lim ≠ 0 ∧
          (m.attempts : ℚ) ≥ (lim : ℚ) * 2) → False := by
        rintro ⟨lim, hlim, hnz, _⟩
        have h2 : _permissive_threshold m = some ((lim : ℚ) * 2) :=
          (permissive_threshold_some_iff m _).mpr ⟨lim, hlim, hnz, rfl⟩
        rw [ht] at h2
        cases h2
      show m.permissive_mode = true ↔ _
      constructor
      · intro hx
        exact Or.inl hx
      · rintro (hx | hex)
        · exact hx
        · exact absurd hex hmm
    | some t =>
      rcases (permissive_threshold_some_iff m t).mp ht with ⟨lim, hlim, hnz, htv⟩
      by_cases hge : (m.attempts : ℚ) ≥ t
      · show (if (m.attempts : ℚ) ≥ t then
            { m with permissive_mode := true } else m).permissive_mode
            = true ↔ _
        rw [if_pos hge]
        constructor
        · intro _
          refine Or.inr ⟨lim, hlim, hnz, ?_⟩
          rw [← htv]
          exact hge
        · intro _
          rfl
      · show (if (m.attempts : ℚ) ≥ t then
            { m with permissive_mode := true } else m).permissive_mode
            = true ↔ _
        rw [if_neg hge]
        constructor
        · intro hx
          exact Or.inl hx
        · rintro (hx | ⟨lim', hlim', hnz', hge'⟩)
          · exact hx
          · exfalso
            rw [hlim] at hlim'
            injection hlim' with he
            subst he
            refine hge ?_
            rw [htv]
            exact hge'

theorem add_success_resets (o : Node) (j : Nat) (sc : Option ℚ)
    (h2 : (add_neighbor o j sc).2 = true) :
    (add_neighbor o j sc).1.attempts = 0 ∧
    (add_neighbor o j sc).1.permissive_mode = false := by
  by_cases h0 : j = o.id
  · rw [add_neighbor_self h0] at h2
    cases h2
  · by_cases h1 : j ∈ o.neighbors
    · rw [add_neighbor_dup h1] at h2
      cases h2
    · cases hc : can_accept_more_neighbors o with
      | false =>
        rw [add_neighbor_full h0 h1 hc] at h2
        cases h2
      | true =>
        rw [add_neighbor_success h0 h1 hc]
        exact ⟨rfl, rfl⟩

theorem evict_infinite_limit {s' : SimState} {i : Nat} {sc : Option ℚ}
    {n : Node} (hs : PermInvState s') (hg : getN s' i = some n)
    (hd : n.degree_limit = Option.none) :
    evict_weakest_neighbor s' i sc = (s', Option.none) := by
  have hpm : n.permissive_mode = false := by
    cases hpm' : n.permissive_mode
    · rfl
    · exfalso
      rcases hs n (getN_mem hg) hpm' with ⟨lim, hlim, _, _⟩
      rw [hd] at hlim
      cases hlim
  exact evict_not_permissive hg hpm sc

/-- **C5.** Over any sequence of simulation operations starting from a
state satisfying the permissive invariant, `permissive_mode` is true only
when the degree limit is finite and positive and
`attempts ≥ 2 × degree_limit`; a node with an infinite degree limit is
never in permissive mode; `register_neighbor_attempt_failure` switches
permissive mode on exactly when the incremented attempt counter reaches
the threshold `degree_limit * 2`; a successful `add_neighbor` resets
`attempts` to `0` and clears `permissive_mode` together; and
`evict_weakest_neighbor` leaves a state untouched (removing nothing) at a
node whose degree limit is infinite. -/
theorem c5_permissive_invariant (L : PyLib) (s : SimState)
    (ops : List SimOp) (h : PermInvState s) :
    PermInvState (runOps L s ops) ∧
    (∀ n ∈ runOps L s ops, n.degree_limit = Option.none →
      n.permissive_mode = false) ∧
    (∀ n : Node,
      (register_neighbor_attempt_failure n).permissive_mode = true ↔
        (n.permissive_mode = true ∨ ∃ lim, n.degree_limit = some lim ∧
          lim ≠ 0 ∧ ((n.attempts + 1 : Int) : ℚ) ≥ (lim : ℚ) * 2)) ∧
    (∀ (o : Node) (j : Nat) (sc : Option ℚ),
      (add_neighbor o j sc).2 = true →
        (add_neighbor o j sc).1.attempts = 0 ∧
        (add_neighbor o j sc).1.permissive_mode = false) ∧
    (∀ (s' : SimState) (i : Nat) (sc : Option ℚ) (n : Node),
      PermInvState s' → getN s' i = some n →
      n.degree_limit = Option.none →
      evict_weakest_neighbor s' i sc = (s', Option.none)) := by
  refine ⟨permInvState_runOps L ops h, ?_, ?_, ?_, ?_⟩
  · intro n hn hdnone
    cases hpm : n.permissive_mode
    · rfl
    · exfalso
      rcases permInvState_runOps L ops h n hn hpm with ⟨lim, hlim, _, _⟩
      rw [hdnone] at hlim
      cases hlim
  · intro n
    exact update_permissive_pm_iff { n with attempts := n.attempts + 1 }
  · intro o j sc h2
    exact add_success_resets o j sc h2
  · intro s' i sc n hs hg hd
    exact evict_infinite_limit hs hg hd

/-- Witness for C5: the empty state satisfies the invariant and the claim
holds there for a concrete operation sequence. -/
theorem c5_witness :
    PermInvState ([] : SimState) ∧
    (PermInvState (runOps zeroLib [] [SimOp.fail 1]) ∧
     (∀ n ∈ runOps zeroLib [] [SimOp.fail 1],
        n.degree_limit = Option.none → n.permissive_mode = false) ∧
     (∀ n : Node,
       (register_neighbor_attempt_failure n).permissive_mode = true ↔
         (n.permissive_mode = true ∨ ∃ lim, n.degree_limit = some lim ∧
           lim ≠ 0 ∧ ((n.attempts + 1 : Int) : ℚ) ≥ (lim : ℚ) * 2)) ∧
     (∀ (o : Node) (j : Nat) (sc : Option ℚ),
       (add_neighbor o j sc).2 = true →
         (add_neighbor o j sc).1.attempts = 0 ∧
         (add_neighbor o j sc).1.permissive_mode = false) ∧
     (∀ (s' : SimState) (i : Nat) (sc : Option ℚ) (n : Node),
       PermInvState s' → getN s' i = some n →
       n.degree_limit = Option.none →
       evict_weakest_neighbor s' i sc = (s', Option.none))) :=
  ⟨(fun _ hn => nomatch hn),
   c5_permissive_invariant zeroLib [] [SimOp.fail 1] (fun _ hn => nomatch hn)⟩

/-! ## Preservation of state well-formedness (claim C1) -/

theorem remove_neighbor_max (n : Node) (j : Nat) :
    ((remove_neighbor n j).1).max_degree = n.max_degree := by
  unfold remove_neighbor
  by_cases h : j ∈ n.neighbors <;> simp [h]

theorem remove_neighbor_mem {n : Node} (hnd : n.neighbors.Nodup)
    (j x : Nat) :
    x ∈ ((remove_neighbor n j).1).neighbors ↔
      x ∈ n.neighbors ∧ x ≠ j := by
  unfold remove_neighbor
  by_cases h : j ∈ n.neighbors
  · simp only [h, if_true]
    constructor
    · intro hx
      have hx' : x ≠ j ∧ x ∈ n.neighbors :=
        (List.Nodup.mem_erase_iff hnd).mp hx
      exact ⟨hx'.2, hx'.1⟩
    · intro hx
      exact (List.Nodup.mem_erase_iff hnd).mpr ⟨hx.2, hx.1⟩
  · simp only [h, if_false]
    constructor
    · intro hx
      refine ⟨hx, ?_⟩
      intro he
      exact h (he ▸ hx)
    · intro hx
      exact hx.1

theorem remove_neighbor_nodup {n : Node} (hnd : n.neighbors.Nodup)
    (j : Nat) : ((remove_neighbor n j).1).neighbors.Nodup := by
  unfold remove_neighbor
  by_cases h : j ∈ n.neighbors
  · simp only [h, if_true]
    exact hnd.erase j
  · simpa [h] using hnd

theorem remove_neighbor_len (n : Node) (j : Nat) :
    ((remove_neighbor n j).1).neighbors.length ≤ n.neighbors.length := by
  unfold remove_neighbor
  by_cases h : j ∈ n.neighbors
  · simp only [h, if_true]
    exact (List.erase_sublist j n.neighbors).length_le
  · simp [h]

theorem remove_neighbor_sim {n : Node} {j : Nat} {p : ℚ × Nat}
    (hp : p ∈ ((remove_neighbor n j).1).neighbors_by_similarity) :
    p ∈ n.neighbors_by_similarity ∧ p.2 ≠ j := by
  unfold remove_neighbor at hp
  by_cases hj : j ∈ n.neighbors <;>
    simp only [hj, if_true, if_false] at hp <;>
    (split at hp
     · rename_i he
       have hnil : n.neighbors_by_similarity = [] := by
         cases hs : n.neighbors_by_similarity with
         | nil => rfl
         | cons q rest => rw [hs] at he; cases he
       rw [hnil] at hp
       cases hp
     · rcases List.mem_filter.mp hp with ⟨hm, hb⟩
       refine ⟨hm, ?_⟩
       simpa using hb)

theorem addedNode_mem (o : Node) (j : Nat) (sc : Option ℚ) (x : Nat) :
    x ∈ (addedNode o j sc).neighbors ↔ x ∈ o.neighbors ∨ x = j := by
  simp [addedNode]

theorem addedNode_max (o : Node) (j : Nat) (sc : Option ℚ) :
    (addedNode o j sc).max_degree = o.max_degree := rfl

theorem addedNode_nodup {o : Node} (hnd : o.neighbors.Nodup) {j : Nat}
    (hj : j ∉ o.neighbors) (sc : Option ℚ) :
    (addedNode o j sc).neighbors.Nodup := by
  show (o.neighbors ++ [j]).Nodup
  rw [List.nodup_append]
  refine ⟨hnd, List.nodup_singleton j, ?_⟩
  intro x hx hxj
  rw [List.mem_singleton] at hxj
  subst hxj
  exact hj hx

theorem degreeOK_addedNode {o : Node}
    (hc : can_accept_more_neighbors o = true) (j : Nat) (sc : Option ℚ) :
    degreeOK (addedNode o j sc) = true := by
  cases hd : o.max_degree with
  | none => simp [degreeOK, Node.degree_limit, addedNode, hd]
  | some lim =>
    have hlen : o.neighbors.length < lim := by
      simpa [can_accept_more_neighbors, Node.degree_limit, hd] using hc
    simp only [degreeOK, Node.degree_limit, addedNode, hd]
    simp
    omega

theorem addedNode_sim_mem {o : Node} {j : Nat} {sc : Option ℚ}
    {p : ℚ × Nat} (hp : p ∈ (addedNode o j sc).neighbors_by_similarity) :
    p ∈ o.neighbors_by_similarity ∨ p.2 = j := by
  have hm := (sortPairs_perm
    (o.neighbors_by_similarity ++ [(sc.getD 0, j)])).mem_iff.mp hp
  rcases List.mem_append.mp hm with h | h
  · exact Or.inl h
  · rw [List.mem_singleton] at h
    subst h
    exact Or.inr rfl

theorem can_accept_after_remove {n : Node} {wn : Nat}
    (hmem : wn ∈ n.neighbors) (hdeg : degreeOK n = true) :
    can_accept_more_neighbors ((remove_neighbor n wn).1) = true := by
  have hnb : ((remove_neighbor n wn).1).neighbors =
      n.neighbors.erase wn := by
    unfold remove_neighbor
    simp [hmem]
  unfold can_accept_more_neighbors Node.degree_limit
  rw [remove_neighbor_max, hnb]
  cases hd : n.max_degree with
  | none => simp
  | some lim =>
    have hle : n.neighbors.length ≤ lim := by
      simpa [degreeOK, Node.degree_limit, hd] using hdeg
    have h1 : 0 < n.neighbors.length := List.length_pos_of_mem hmem
    have hlen := List.length_erase_of_mem hmem
    simp only [hlen]
    simp
    omega

theorem linksBack_mem {s : SimState} (hd : IdsNodup s) {a b : Node}
    (hb : b ∈ s) (h : linksBack s a.id b.id = true) :
    a.id ∈ b.neighbors := by
  unfold linksBack at h
  cases hg : getN s b.id with
  | none => rw [hg] at h; cases h
  | some m =>
    rw [hg] at h
    have hm : a.id ∈ m.neighbors := by simpa using h
    rwa [nodup_id_unique hd (getN_mem hg) hb (getN_id hg)] at hm

theorem NbSymm_of_StateWF {s : SimState} (h : StateWF s) : NbSymm s := by
  intro a ha b hb
  constructor
  · intro hba
    exact linksBack_mem h.1 hb ((h.2 a ha).2.2.1 b.id hba)
  · intro hab
    exact linksBack_mem h.1 ha ((h.2 b hb).2.2.1 a.id hab)

theorem linksBack_setN {s : SimState} {i : Nat} {f : Node → Node}
    (hid : ∀ n, n.id = i → (f n).id = i)
    (hnb : ∀ n ∈ s, n.id = i → (f n).neighbors = n.neighbors)
    (a j : Nat) : linksBack (setN s i f) a j = linksBack s a j := by
  unfold linksBack
  by_cases hj : j = i
  · subst hj
    rw [getN_setN_same hid]
    cases hg : getN s j with
    | none => rfl
    | some m =>
      show decide (a ∈ (f m).neighbors) = decide (a ∈ m.neighbors)
      rw [hnb m (getN_mem hg) (getN_id hg)]
  · rw [getN_setN_ne hid hj]

theorem StateWF_setN {s : SimState} {i : Nat} {f : Node → Node}
    (hid : ∀ n, n.id = i → (f n).id = i)
    (hnb : ∀ n ∈ s, n.id = i → (f n).neighbors = n.neighbors)
    (hdeg : ∀ n ∈ s, n.id = i → (f n).max_degree = n.max_degree)
    (hsim : ∀ n ∈ s, n.id = i → ∀ p ∈ (f n).neighbors_by_similarity,
      ∃ q ∈ n.neighbors_by_similarity, q.2 = p.2)
    (h : StateWF s) : StateWF (setN s i f) := by
  refine ⟨IdsNodup_setN hid h.1, ?_⟩
  intro n' hn'
  rcases mem_setN.mp hn' with ⟨n, hn, rfl⟩
  rcases h.2 n hn with ⟨hnd, hself, hlb, hdg, hsm⟩
  by_cases hni : (n.id == i) = true
  · have hni' : n.id = i := by simpa using hni
    rw [if_pos hni]
    have hfid : (f n).id = n.id := by rw [hid n hni', hni']
    refine ⟨?_, ?_, ?_, ?_, ?_⟩
    · rw [hnb n hn hni']
      exact hnd
    · rw [hnb n hn hni', hfid]
      exact hself
    · intro j hj
      rw [hnb n hn hni'] at hj
      rw [linksBack_setN hid hnb, hfid]
      exact hlb j hj
    · unfold degreeOK Node.degree_limit at hdg ⊢
      rw [hdeg n hn hni', hnb n hn hni']
      exact hdg
    · intro p hp
      rcases hsim n hn hni' p hp with ⟨q, hq, hq2⟩
      rw [hnb n hn hni', ← hq2]
      exact hsm q hq
  · rw [if_neg hni]
    refine ⟨hnd, hself, ?_, hdg, hsm⟩
    intro j hj
    rw [linksBack_setN hid hnb]
    exact hlb j hj

theorem register_failureS_WF {s : SimState} (i : Nat) (h : StateWF s) :
    StateWF (register_failureS s i) := by
  refine StateWF_setN ?_ ?_ ?_ ?_ h
  · intro n hn
    rw [register_id]
    exact hn
  · intro n _ _
    exact register_neighbors n
  · intro n _ _
    exact register_degree n
  · intro n _ _ p hp
    rw [register_sim] at hp
    exact ⟨p, hp, rfl⟩

theorem recordEvent_WF {s : SimState} (i j : Nat) (sc : ℚ)
    (h : StateWF s) : StateWF (recordEvent s i j sc) := by
  unfold recordEvent
  refine StateWF_setN ?_ ?_ ?_ ?_ h
  · intro n hn
    cases hh : n.history <;> simpa [hh] using hn
  · intro n _ _
    cases hh : n.history <;> simp [hh]
  · intro n _ _
    cases hh : n.history <;> simp [hh]
  · intro n _ _ p hp
    refine ⟨p, ?_, rfl⟩
    cases hh : n.history <;> simpa [hh] using hp

theorem sortSim_WF {s : SimState} {i : Nat} {o : Node} (h : StateWF s)
    (ho : getN s i = some o) :
    StateWF (setN s i (fun _ => sortedSimNode o)) := by
  have hoid : o.id = i := getN_id ho
  have hos : o ∈ s := getN_mem ho
  refine StateWF_setN ?_ ?_ ?_ ?_ h
  · intro n _
    rw [sortedSimNode_id]
    exact hoid
  · intro n hn hni
    have : n = o := nodup_id_unique h.1 hn hos (by rw [hni, hoid])
    subst this
    rfl
  · intro n hn hni
    have : n = o := nodup_id_unique h.1 hn hos (by rw [hni, hoid])
    subst this
    rfl
  · intro n hn hni p hp
    have : n = o := nodup_id_unique h.1 hn hos (by rw [hni, hoid])
    subst this
    refine ⟨p, ?_, rfl⟩
    exact (sortPairs_perm n.neighbors_by_similarity).mem_iff.mp hp

theorem StateWF_unlink {s : SimState} {a b : Nat} (hab : b ≠ a)
    (h : StateWF s) :
    StateWF (remove_neighborS (remove_neighborS s a b) b a) := by
  have hab' : a ≠ b := fun he => hab he.symm
  have hida : ∀ n : Node, n.id = a → ((remove_neighbor n b).1).id = a := by
    intro n hn
    rw [remove_neighbor_id]
    exact hn
  have hidb : ∀ n : Node, n.id = b → ((remove_neighbor n a).1).id = b := by
    intro n hn
    rw [remove_neighbor_id]
    exact hn
  show StateWF (setN (setN s a (fun n => (remove_neighbor n b).1)) b
      (fun n => (remove_neighbor n a).1))
  have hga : getN (setN (setN s a (fun n => (remove_neighbor n b).1)) b
      (fun n => (remove_neighbor n a).1)) a =
      (getN s a).map (fun n => (remove_neighbor n b).1) := by
    rw [getN_setN_ne hidb hab', getN_setN_same hida]
  have hgb : getN (setN (setN s a (fun n => (remove_neighbor n b).1)) b
      (fun n => (remove_neighbor n a).1)) b =
      (getN s b).map (fun n => (remove_neighbor n a).1) := by
    rw [getN_setN_same hidb, getN_setN_ne hida hab]
  have hgo : ∀ k : Nat, k ≠ a → k ≠ b →
      getN (setN (setN s a (fun n => (remove_neighbor n b).1)) b
      (fun n => (remove_neighbor n a).1)) k = getN s k := by
    intro k hka hkb
    rw [getN_setN_ne hidb hkb, getN_setN_ne hida hka]
  have hL0 : ∀ x k : Nat, k ≠ a → k ≠ b → linksBack s x k = true →
      linksBack (setN (setN s a (fun n => (remove_neighbor n b).1)) b
      (fun n => (remove_neighbor n a).1)) x k = true := by
    intro x k hka hkb hl
    unfold linksBack at hl ⊢
    rw [hgo k hka hkb]
    exact hl
  have hLa : ∀ x : Nat, x ≠ b → linksBack s x a = true →
      linksBack (setN (setN s a (fun n => (remove_neighbor n b).1)) b
      (fun n => (remove_neighbor n a).1)) x a = true := by
    intro x hxb hl
    unfold linksBack at hl ⊢
    rw [hga]
    cases hg : getN s a with
    | none => rw [hg] at hl; cases hl
    | some M =>
      rw [hg] at hl
      have hxM : x ∈ M.neighbors := by simpa using hl
      have hMnd : M.neighbors.Nodup := (h.2 M (getN_mem hg)).1
      show decide (x ∈ ((remove_neighbor M b).1).neighbors) = true
      rw [decide_eq_true_eq]
      exact (remove_neighbor_mem hMnd b x).mpr ⟨hxM, hxb⟩
  have hLb : ∀ x : Nat, x ≠ a → linksBack s x b = true →
      linksBack (setN (setN s a (fun n => (remove_neighbor n b).1)) b
      (fun n => (remove_neighbor n a).1)) x b = true := by
    intro x hxa hl
    unfold linksBack at hl ⊢
    rw [hgb]
    cases hg : getN s b with
    | none => rw [hg] at hl; cases hl
    | some M =>
      rw [hg] at hl
      have hxM : x ∈ M.neighbors := by simpa using hl
      have hMnd : M.neighbors.Nodup := (h.2 M (getN_mem hg)).1
      show decide (x ∈ ((remove_neighbor M a).1).neighbors) = true
      rw [decide_eq_true_eq]
      exact (remove_neighbor_mem hMnd a x).mpr ⟨hxM, hxa⟩
  refine ⟨IdsNodup_setN hidb (IdsNodup_setN hida h.1), ?_⟩
  intro n' hn'
  rcases mem_setN.mp hn' with ⟨m, hm, rfl⟩
  rcases mem_setN.mp hm with ⟨n, hn, rfl⟩
  rcases h.2 n hn with ⟨hnd, hself, hlb, hdg, hsm⟩
  by_cases hna : (n.id == a) = true
  · have hna' : n.id = a := by simpa using hna
    have houter : ¬ (((remove_neighbor n b).1).id == b) = true := by
      rw [hida n hna']
      simp [hab']
    rw [if_pos hna, if_neg houter]
    refine ⟨remove_neighbor_nodup hnd b, ?_, ?_, ?_, ?_⟩
    · rw [remove_neighbor_id]
      intro hmem'
      exact hself ((remove_neighbor_mem hnd b n.id).mp hmem').1
    · intro k hk
      rcases (remove_neighbor_mem hnd b k).mp hk with ⟨hkn, hkb⟩
      have hka : k ≠ a := by
        intro he
        subst he
        exact hself (by rwa [← hna'] at hkn)
      rw [remove_neighbor_id]
      exact hL0 n.id k hka hkb (hlb k hkn)
    · unfold degreeOK Node.degree_limit at hdg ⊢
      rw [remove_neighbor_max]
      cases hd : n.max_degree with
      | none => rfl
      | some lim =>
        simp only [hd] at hdg ⊢
        simp only [decide_eq_true_eq] at hdg ⊢
        exact le_trans (remove_neighbor_len n b) hdg
    · intro p hp
      rcases remove_neighbor_sim hp with ⟨hpm, hpb⟩
      exact (remove_neighbor_mem hnd b p.2).mpr ⟨hsm p hpm, hpb⟩
  · rw [if_neg hna]
    by_cases hnb2 : (n.id == b) = true
    · have hnb' : n.id = b := by simpa using hnb2
      rw [if_pos hnb2]
      refine ⟨remove_neighbor_nodup hnd a, ?_, ?_, ?_, ?_⟩
      · rw [remove_neighbor_id]
        intro hmem'
        exact hself ((remove_neighbor_mem hnd a n.id).mp hmem').1
      · intro k hk
        rcases (remove_neighbor_mem hnd a k).mp hk with ⟨hkn, hka⟩
        have hkb : k ≠ b := by
          intro he
          subst he
          exact hself (by rwa [← hnb'] at hkn)
        rw [remove_neighbor_id]
        exact hL0 n.id k hka hkb (hlb k hkn)
      · unfold degreeOK Node.degree_limit at hdg ⊢
        rw [remove_neighbor_max]
        cases hd : n.max_degree with
        | none => rfl
        | some lim =>
          simp only [hd] at hdg ⊢
          simp only [decide_eq_true_eq] at hdg ⊢
          exact le_trans (remove_neighbor_len n a) hdg
      · intro p hp
        rcases remove_neighbor_sim hp with ⟨hpm, hpa⟩
        exact (remove_neighbor_mem hnd a p.2).mpr ⟨hsm p hpm, hpa⟩
    · rw [if_neg hnb2]
      have hnia : n.id ≠ a := by simpa using hna
      have hnib : n.id ≠ b := by simpa using hnb2
      refine ⟨hnd, hself, ?_, hdg, hsm⟩
      intro k hk
      by_cases hka : k = a
      · subst hka
        exact hLa n.id hnib (hlb k hk)
      · by_cases hkb : k = b
        · subst hkb
          exact hLb n.id hnia (hlb k hk)
        · exact hL0 n.id k hka hkb (hlb k hk)

theorem StateWF_link {s : SimState} {a b : Nat} {A B : Node}
    {sc : Option ℚ}
    (h : StateWF s) (ha : getN s a = some A) (hb : getN s b = some B)
    (hba : b ≠ a) (h1 : b ∉ A.neighbors) (h2 : a ∉ B.neighbors)
    (hcA : can_accept_more_neighbors A = true)
    (hcB : can_accept_more_neighbors B = true) :
    StateWF (setN (setN s a (fun _ => addedNode A b sc)) b
      (fun _ => addedNode B a sc)) := by
  have hab' : a ≠ b := fun he => hba he.symm
  have hAid : A.id = a := getN_id ha
  have hBid : B.id = b := getN_id hb
  rcases h.2 A (getN_mem ha) with ⟨hAnd, hAself, hAlb, _, hAsm⟩
  rcases h.2 B (getN_mem hb) with ⟨hBnd, hBself, hBlb, _, hBsm⟩
  have hida : ∀ n : Node, n.id = a → (addedNode A b sc).id = a := by
    intro n _
    rw [addedNode_id]
    exact hAid
  have hidb : ∀ n : Node, n.id = b → (addedNode B a sc).id = b := by
    intro n _
    rw [addedNode_id]
    exact hBid
  have hga : getN (setN (setN s a (fun _ => addedNode A b sc)) b
      (fun _ => addedNode B a sc)) a = some (addedNode A b sc) := by
    rw [getN_setN_ne hidb hab', getN_setN_same hida, ha]
    rfl
  have hgb : getN (setN (setN s a (fun _ => addedNode A b sc)) b
      (fun _ => addedNode B a sc)) b = some (addedNode B a sc) := by
    rw [getN_setN_same hidb, getN_setN_ne hida hba, hb]
    rfl
  have hgo : ∀ k : Nat, k ≠ a → k ≠ b →
      getN (setN (setN s a (fun _ => addedNode A b sc)) b
      (fun _ => addedNode B a sc)) k = getN s k := by
    intro k hka hkb
    rw [getN_setN_ne hidb hkb, getN_setN_ne hida hka]
  have hL0 : ∀ x k : Nat, k ≠ a → k ≠ b → linksBack s x k = true →
      linksBack (setN (setN s a (fun _ => addedNode A b sc)) b
      (fun _ => addedNode B a sc)) x k = true := by
    intro x k hka hkb hl
    unfold linksBack at hl ⊢
    rw [hgo k hka hkb]
    exact hl
  have hLa : ∀ x : Nat, x ∈ A.neighbors ∨ x = b →
      linksBack (setN (setN s a (fun _ => addedNode A b sc)) b
      (fun _ => addedNode B a sc)) x a = true := by
    intro x hx
    unfold linksBack
    rw [hga]
    show decide (x ∈ (addedNode A b sc).neighbors) = true
    rw [decide_eq_true_eq]
    exact (addedNode_mem A b sc x).mpr hx
  have hLb : ∀ x : Nat, x ∈ B.neighbors ∨ x = a →
      linksBack (setN (setN s a (fun _ => addedNode A b sc)) b
      (fun _ => addedNode B a sc)) x b = true := by
    intro x hx
    unfold linksBack
    rw [hgb]
    show decide (x ∈ (addedNode B a sc).neighbors) = true
    rw [decide_eq_true_eq]
    exact (addedNode_mem B a sc x).mpr hx
  refine ⟨IdsNodup_setN hidb (IdsNodup_setN hida h.1), ?_⟩
  intro n' hn'
  rcases mem_setN.mp hn' with ⟨m, hm, rfl⟩
  rcases mem_setN.mp hm with ⟨n, hn, rfl⟩
  rcases h.2 n hn with ⟨hnd, hself, hlb, hdg, hsm⟩
  by_cases hna : (n.id == a) = true
  · have houter : ¬ ((addedNode A b sc).id == b) = true := by
      rw [addedNode_id, hAid]
      simp [hab']
    rw [if_pos hna, if_neg houter]
    refine ⟨addedNode_nodup hAnd h1 sc, ?_, ?_,
      degreeOK_addedNode hcA b sc, ?_⟩
    · rw [addedNode_id]
      intro hmem
      rcases (addedNode_mem A b sc A.id).mp hmem with hx | hx
      · exact hAself hx
      · rw [hAid] at hx
        exact hba hx.symm
    · intro k hk
      rw [addedNode_id]
      rcases (addedNode_mem A b sc k).mp hk with hk' | rfl
      · have hka : k ≠ a := by
          intro he
          subst he
          exact hAself (hAid ▸ hk')
        have hkb : k ≠ b := by
          intro he
          subst he
          exact h1 hk'
        exact hL0 A.id k hka hkb (hAlb k hk')
      · exact hLb A.id (Or.inr hAid)
    · intro p hp
      rcases addedNode_sim_mem hp with hp' | hp2
      · exact (addedNode_mem A b sc p.2).mpr (Or.inl (hAsm p hp'))
      · exact (addedNode_mem A b sc p.2).mpr (Or.inr hp2)
  · rw [if_neg hna]
    by_cases hnb2 : (n.id == b) = true
    · rw [if_pos hnb2]
      refine ⟨addedNode_nodup hBnd h2 sc, ?_, ?_,
        degreeOK_addedNode hcB a sc, ?_⟩
      · rw [addedNode_id]
        intro hmem
        rcases (addedNode_mem B a sc B.id).mp hmem with hx | hx
        · exact hBself hx
        · rw [hBid] at hx
          exact hba hx
      · intro k hk
        rw [addedNode_id]
        rcases (addedNode_mem B a sc k).mp hk with hk' | rfl
        · have hkb : k ≠ b := by
            intro he
            subst he
            exact hBself (hBid ▸ hk')
          have hka : k ≠ a := by
            intro he
            subst he
            exact h2 hk'
          exact hL0 B.id k hka hkb (hBlb k hk')
        · exact hLa B.id (Or.inr hBid)
      · intro p hp
        rcases addedNode_sim_mem hp with hp' | hp2
        · exact (addedNode_mem B a sc p.2).mpr (Or.inl (hBsm p hp'))
        · exact (addedNode_mem B a sc p.2).mpr (Or.inr hp2)
    · rw [if_neg hnb2]
      have hnia : n.id ≠ a := by simpa using hna
      have hnib : n.id ≠ b := by simpa using hnb2
      refine ⟨hnd, hself, ?_, hdg, hsm⟩
      intro k hk
      by_cases hka : k = a
      · subst hka
        have hl := hlb k hk
        unfold linksBack at hl
        rw [ha] at hl
        have hmem : n.id ∈ A.neighbors := by simpa using hl
        exact hLa n.id (Or.inl hmem)
      · by_cases hkb : k = b
        · subst hkb
          have hl := hlb k hk
          unfold linksBack at hl
          rw [hb] at hl
          have hmem : n.id ∈ B.neighbors := by simpa using hl
          exact hLb n.id (Or.inl hmem)
        · exact hL0 n.id k hka hkb (hlb k hk)

theorem restore_success_eq {s : SimState} {a b : Nat} {A B : Node}
    (ha : getN s a = some A) (hb : getN s b = some B) (hba : b ≠ a)
    (h1 : b ∉ A.neighbors) (h2 : a ∉ B.neighbors)
    (hcA : can_accept_more_neighbors A = true)
    (hcB : can_accept_more_neighbors B = true) (sc : Option ℚ) :
    restore_neighbor s a b sc =
      setN (setN s a (fun _ => addedNode A b sc)) b
      (fun _ => addedNode B a sc) := by
  have hAid : A.id = a := getN_id ha
  have hBid : B.id = b := getN_id hb
  have hba' : b ≠ A.id := by rw [hAid]; exact hba
  have hab' : a ≠ B.id := by rw [hBid]; exact fun he => hba he.symm
  have e1 : add_neighborS s a b sc =
      (setN s a (fun _ => addedNode A b sc), true) := by
    rw [add_neighborS_eq ha b sc, add_neighbor_success hba' h1 hcA]
  have hgb : getN (setN s a (fun _ => addedNode A b sc)) b = some B := by
    rw [getN_setN_ne (fun n hn => by rw [addedNode_id]; exact hAid) hba]
    exact hb
  have e2 : add_neighborS (setN s a (fun _ => addedNode A b sc)) b a sc =
      (setN (setN s a (fun _ => addedNode A b sc)) b
      (fun _ => addedNode B a sc), true) := by
    rw [add_neighborS_eq hgb a sc, add_neighbor_success hab' h2 hcB]
  unfold restore_neighbor
  rw [e1]
  show (add_neighborS (setN s a (fun _ => addedNode A b sc)) b a sc).1 =
    setN (setN s a (fun _ => addedNode A b sc)) b
      (fun _ => addedNode B a sc)
  rw [e2]

theorem restoreOpt_WF {s : SimState} {i : Nat} {o : Node}
    (h : StateWF s) (ho : getN s i = some o)
    (hao : can_accept_more_neighbors o = true)
    (eS : Option (ℚ × Nat))
    (heS : eS = Option.none ∨ ∃ ws wn W, eS = some (ws, wn) ∧ wn ≠ i ∧
      wn ∉ o.neighbors ∧ getN s wn = some W ∧ i ∉ W.neighbors ∧
      can_accept_more_neighbors W = true) :
    StateWF (restoreOpt s i eS) := by
  rcases heS with rfl | ⟨ws, wn, W, rfl, hwni, hwno, hW, hiW, hcW⟩
  · exact h
  · show StateWF (restore_neighbor s i wn (some ws))
    rw [restore_success_eq ho hW hwni hwno hiW hao hcW (some ws)]
    exact StateWF_link h ho hW hwni hwno hiW hao hcW

theorem negotiateAdds_WF {s : SimState} {i j : Nat} {o c : Node}
    (h : StateWF s) (ho : getN s i = some o) (hc : getN s j = some c)
    (hne : j ≠ i) (hnmo : j ∉ o.neighbors) (hnmc : i ∉ c.neighbors)
    (hao : can_accept_more_neighbors o = true)
    (hac : can_accept_more_neighbors c = true)
    (score : ℚ) (eS eC : Option (ℚ × Nat)) :
    StateWF (negotiateAdds s i j score eS eC) := by
  rw [negotiateAdds_success ho hc hne hnmo hnmc hao hac score eS eC]
  exact recordEvent_WF _ _ _ (StateWF_link h ho hc hne hnmo hnmc hao hac)

theorem negotiateCand_full_notperm {s : SimState} {j : Nat} {c : Node}
    (hc : getN s j = some c) (hfull : can_accept_more_neighbors c = false)
    (hperm : c.permissive_mode = false) (i : Nat) (score : ℚ)
    (eS : Option (ℚ × Nat)) :
    negotiateCand s i j score eS =
      register_failureS (restoreOpt s i eS) j := by
  unfold negotiateCand
  rw [hc]
  simp [hfull, hperm]

theorem negotiateCand_full_perm {s : SimState} {j : Nat} {c : Node}
    (hc : getN s j = some c) (hfull : can_accept_more_neighbors c = false)
    (hperm : c.permissive_mode = true) (i : Nat) (score : ℚ)
    (eS : Option (ℚ × Nat)) :
    negotiateCand s i j score eS =
      (match (evict_weakest_neighbor s j (some score)).2 with
       | Option.none =>
         register_failureS
           (restoreOpt (evict_weakest_neighbor s j (some score)).1 i eS) j
       | some ec =>
         negotiateAdds (evict_weakest_neighbor s j (some score)).1
           i j score eS (some ec)) := by
  unfold negotiateCand
  rw [hc]
  simp [hfull, hperm]

theorem negotiateCand_WF {s : SimState} {i j : Nat} {o c : Node}
    (h : StateWF s) (ho : getN s i = some o) (hc : getN s j = some c)
    (hne : j ≠ i) (hnmo : j ∉ o.neighbors) (hnmc : i ∉ c.neighbors)
    (hao : can_accept_more_neighbors o = true)
    (score : ℚ) (eS : Option (ℚ × Nat))
    (heS : eS = Option.none ∨ ∃ ws wn W, eS = some (ws, wn) ∧ wn ≠ i ∧
      wn ≠ j ∧ wn ∉ o.neighbors ∧ getN s wn = some W ∧
      i ∉ W.neighbors ∧ can_accept_more_neighbors W = true) :
    StateWF (negotiateCand s i j score eS) := by
  have heS0 : eS = Option.none ∨ ∃ ws wn W, eS = some (ws, wn) ∧ wn ≠ i ∧
      wn ∉ o.neighbors ∧ getN s wn = some W ∧ i ∉ W.neighbors ∧
      can_accept_more_neighbors W = true := by
    rcases heS with rfl | ⟨ws, wn, W, rfl, e1, e2, e3, e4, e5, e6⟩
    · exact Or.inl rfl
    · exact Or.inr ⟨ws, wn, W, rfl, e1, e3, e4, e5, e6⟩
  have hcid : c.id = j := getN_id hc
  rcases h.2 c (getN_mem hc) with ⟨hndc, hselfc, _, hdgc, hsmc⟩
  cases hacC : can_accept_more_neighbors c with
  | true =>
    rw [negotiateCand_notfull hc hacC i score eS]
    exact negotiateAdds_WF h ho hc hne hnmo hnmc hao hacC score eS Option.none
  | false =>
    cases hpm : c.permissive_mode with
    | false =>
      rw [negotiateCand_full_notperm hc hacC hpm i score eS]
      exact register_failureS_WF j (restoreOpt_WF h ho hao eS heS0)
    | true =>
      rw [negotiateCand_full_perm hc hacC hpm i score eS]
      cases hhead : (sortPairs c.neighbors_by_similarity).head? with
      | none =>
        have hsim0 : c.neighbors_by_similarity = [] := by
          have h0 : sortPairs c.neighbors_by_similarity = [] :=
            List.head?_eq_none_iff.mp hhead
          have hperm2 := sortPairs_perm c.neighbors_by_similarity
          rw [h0] at hperm2
          exact hperm2.symm.eq_nil
        rw [evict_empty h.1 hc hpm hsim0 (some score)]
        show StateWF (register_failureS (restoreOpt s i eS) j)
        exact register_failureS_WF j (restoreOpt_WF h ho hao eS heS0)
      | some pr =>
        rcases pr with ⟨ws2, wn2⟩
        have hidc : ∀ n : Node, n.id = j → (sortedSimNode c).id = j := by
          intro n _
          rw [sortedSimNode_id]
          exact hcid
        have hij : i ≠ j := fun he => hne he.symm
        have hs1 : StateWF (setN s j (fun _ => sortedSimNode c)) := sortSim_WF h hc
        have hg1i : getN (setN s j (fun _ => sortedSimNode c)) i = some o := by
          rw [getN_setN_ne hidc hij]
          exact ho
        have hg1j : getN (setN s j (fun _ => sortedSimNode c)) j = some (sortedSimNode c) := by
          rw [getN_setN_same hidc, hc]
          rfl
        by_cases hlt : ws2 < score
        · rw [evict_success hc hpm hhead hlt]
          show StateWF (negotiateAdds (remove_neighborS (remove_neighborS (setN s j (fun _ => sortedSimNode c)) j wn2) wn2 j)
            i j score eS (some (ws2, wn2)))
          have hwn2c : wn2 ∈ c.neighbors := by
            have hmemsim : (ws2, wn2) ∈
                sortPairs c.neighbors_by_similarity :=
              List.mem_of_mem_head? hhead
            exact hsmc _ ((sortPairs_perm _).mem_iff.mp hmemsim)
          have hwn2j : wn2 ≠ j := by
            intro he
            subst he
            exact hselfc (by rw [hcid]; exact hwn2c)
          have hwn2i : wn2 ≠ i := by
            intro he
            subst he
            exact hnmc hwn2c
          have hS2 : StateWF (remove_neighborS (remove_neighborS (setN s j (fun _ => sortedSimNode c)) j wn2) wn2 j) := StateWF_unlink hwn2j hs1
          have hidj : ∀ n : Node, n.id = j →
              ((remove_neighbor n wn2).1).id = j := by
            intro n hn
            rw [remove_neighbor_id]
            exact hn
          have hidw : ∀ n : Node, n.id = wn2 →
              ((remove_neighbor n j).1).id = wn2 := by
            intro n hn
            rw [remove_neighbor_id]
            exact hn
          have hg2i : getN (remove_neighborS (remove_neighborS (setN s j (fun _ => sortedSimNode c)) j wn2) wn2 j) i = some o := by
            show getN (setN (setN (setN s j (fun _ => sortedSimNode c)) j (fun n => (remove_neighbor n wn2).1)) wn2 (fun n => (remove_neighbor n j).1)) i = some o
            rw [getN_setN_ne hidw (fun he => hwn2i he.symm),
              getN_setN_ne hidj hij]
            exact hg1i
          have hg2j : getN (remove_neighborS (remove_neighborS (setN s j (fun _ => sortedSimNode c)) j wn2) wn2 j) j =
              some ((remove_neighbor (sortedSimNode c) wn2).1) := by
            show getN (setN (setN (setN s j (fun _ => sortedSimNode c)) j (fun n => (remove_neighbor n wn2).1)) wn2 (fun n => (remove_neighbor n j).1)) j =
              some ((remove_neighbor (sortedSimNode c) wn2).1)
            rw [getN_setN_ne hidw (fun he => hwn2j he.symm),
              getN_setN_same hidj, hg1j]
            rfl
          have hnmc2 : i ∉
              ((remove_neighbor (sortedSimNode c) wn2).1).neighbors := by
            intro hmem
            exact hnmc ((remove_neighbor_mem hndc wn2 i).mp hmem).1
          have hacC2 : can_accept_more_neighbors
              ((remove_neighbor (sortedSimNode c) wn2).1) = true :=
            can_accept_after_remove hwn2c hdgc
          exact negotiateAdds_WF hS2 hg2i hg2j hne hnmo hnmc2 hao hacC2
            score eS (some (ws2, wn2))
        · rw [not_lt] at hlt
          rw [evict_too_weak hc hpm hhead hlt]
          show StateWF (register_failureS
            (restoreOpt (setN s j (fun _ => sortedSimNode c)) i eS) j)
          have heS1 : eS = Option.none ∨ ∃ ws wn W, eS = some (ws, wn) ∧
              wn ≠ i ∧ wn ∉ o.neighbors ∧
              getN (setN s j (fun _ => sortedSimNode c)) wn = some W ∧ i ∉ W.neighbors ∧
              can_accept_more_neighbors W = true := by
            rcases heS with rfl | ⟨ws, wn, W, rfl, e1, e2, e3, e4, e5, e6⟩
            · exact Or.inl rfl
            · refine Or.inr ⟨ws, wn, W, rfl, e1, e3, ?_, e5, e6⟩
              rw [getN_setN_ne hidc e2]
              exact e4
          exact register_failureS_WF j (restoreOpt_WF hs1 hg1i hao eS heS1)

theorem discoverStep_WF (L : PyLib) {s : SimState} (i j : Nat)
    (h : StateWF s) : StateWF (discoverStep L s i j) := by
  unfold discoverStep
  try dsimp only
  split <;> try exact h
  rename_i o c hgo hgc
  split
  · exact h
  · rename_i hji
    split
    · exact h
    · rename_i hmem
      split
      · exact register_failureS_WF i h
      · rename_i h3
        split
        · exact h
        · rename_i h4
          have hne : j ≠ i := by simpa using hji
          rcases h.2 o (getN_mem hgo) with ⟨hndo, hselfo, hlbo, hdgo, hsmo⟩
          have hnmc : i ∉ c.neighbors := by
            intro hmem2
            have hlb := (h.2 c (getN_mem hgc)).2.2.1 i hmem2
            unfold linksBack at hlb
            rw [hgo] at hlb
            have hco : c.id ∈ o.neighbors := by simpa using hlb
            rw [getN_id hgc] at hco
            exact hmem hco
          split
          · rename_i h5
            have hfull : can_accept_more_neighbors o = false := by
              cases hx : can_accept_more_neighbors o
              · rfl
              · exact absurd hx h5
            have hpm : o.permissive_mode = true := by
              by_contra hpm'
              apply h3
              have hpmf : o.permissive_mode = false := by
                cases hx : o.permissive_mode
                · rfl
                · exact absurd hx hpm'
              simp [hfull, hpmf]
            cases hhead : (sortPairs o.neighbors_by_similarity).head? with
            | none =>
              have hsim0 : o.neighbors_by_similarity = [] := by
                have h0 : sortPairs o.neighbors_by_similarity = [] :=
                  List.head?_eq_none_iff.mp hhead
                have hperm2 := sortPairs_perm o.neighbors_by_similarity
                rw [h0] at hperm2
                exact hperm2.symm.eq_nil
              rw [evict_empty h.1 hgo hpm hsim0 _]
              exact h
            | some pr =>
              rcases pr with ⟨ws, wn⟩
              by_cases hlt : ws <
                  (should_connect L o c o.connection_threshold (2 / 5)).2
              · rw [evict_success hgo hpm hhead hlt]
                show StateWF (negotiateCand (remove_neighborS (remove_neighborS (setN s i (fun _ => sortedSimNode o)) i wn) wn i) i j
                  (should_connect L o c o.connection_threshold (2 / 5)).2
                  (some (ws, wn)))
                have hoid : o.id = i := getN_id hgo
                have hwno : wn ∈ o.neighbors := by
                  have hmemsim : (ws, wn) ∈
                      sortPairs o.neighbors_by_similarity :=
                    List.mem_of_mem_head? hhead
                  exact hsmo _ ((sortPairs_perm _).mem_iff.mp hmemsim)
                have hwni : wn ≠ i := by
                  intro he
                  subst he
                  exact hselfo (by rw [hoid]; exact hwno)
                have hwnj : wn ≠ j := by
                  intro he
                  subst he
                  exact hmem hwno
                have hlbw := hlbo wn hwno
                unfold linksBack at hlbw
                cases hgw : getN s wn with
                | none => rw [hgw] at hlbw; cases hlbw
                | some W =>
                  rw [hgw] at hlbw
                  have hiW : i ∈ W.neighbors := by
                    rw [← hoid]
                    simpa using hlbw
                  rcases h.2 W (getN_mem hgw) with ⟨hndW, _, _, hdgW, _⟩
                  have hs1 : StateWF (setN s i (fun _ => sortedSimNode o)) := sortSim_WF h hgo
                  have hS2 : StateWF (remove_neighborS (remove_neighborS (setN s i (fun _ => sortedSimNode o)) i wn) wn i) :=
                    StateWF_unlink hwni hs1
                  have hido : ∀ n : Node, n.id = i →
                      (sortedSimNode o).id = i := by
                    intro n _
                    rw [sortedSimNode_id]
                    exact hoid
                  have hidi : ∀ n : Node, n.id = i →
                      ((remove_neighbor n wn).1).id = i := by
                    intro n hn
                    rw [remove_neighbor_id]
                    exact hn
                  have hidw : ∀ n : Node, n.id = wn →
                      ((remove_neighbor n i).1).id = wn := by
                    intro n hn
                    rw [remove_neighbor_id]
                    exact hn
                  have hg1i : getN (setN s i (fun _ => sortedSimNode o)) i =
                      some (sortedSimNode o) := by
                    rw [getN_setN_same hido, hgo]
                    rfl
                  have hg2i : getN (remove_neighborS (remove_neighborS (setN s i (fun _ => sortedSimNode o)) i wn) wn i) i =
                      some ((remove_neighbor (sortedSimNode o) wn).1) := by
                    show getN (setN (setN (setN s i (fun _ => sortedSimNode o)) i (fun n => (remove_neighbor n wn).1)) wn (fun n => (remove_neighbor n i).1)) i =
                      some ((remove_neighbor (sortedSimNode o) wn).1)
                    rw [getN_setN_ne hidw (fun he => hwni he.symm),
                      getN_setN_same hidi, hg1i]
                    rfl
                  have hg2j : getN (remove_neighborS (remove_neighborS (setN s i (fun _ => sortedSimNode o)) i wn) wn i) j = some c := by
                    show getN (setN (setN (setN s i (fun _ => sortedSimNode o)) i (fun n => (remove_neighbor n wn).1)) wn (fun n => (remove_neighbor n i).1)) j = some c
                    rw [getN_setN_ne hidw (fun he => hwnj he.symm),
                      getN_setN_ne hidi hne,
                      getN_setN_ne hido hne]
                    exact hgc
                  have hg2w : getN (remove_neighborS (remove_neighborS (setN s i (fun _ => sortedSimNode o)) i wn) wn i) wn =
                      some ((remove_neighbor W i).1) := by
                    show getN (setN (setN (setN s i (fun _ => sortedSimNode o)) i (fun n => (remove_neighbor n wn).1)) wn (fun n => (remove_neighbor n i).1)) wn =
                      some ((remove_neighbor W i).1)
                    rw [getN_setN_same hidw,
                      getN_setN_ne hidi hwni,
                      getN_setN_ne hido hwni, hgw]
                    rfl
                  have hnmo2 : j ∉
                      ((remove_neighbor (sortedSimNode o) wn).1).neighbors := by
                    intro hmem2
                    exact hmem ((remove_neighbor_mem hndo wn j).mp hmem2).1
                  have hao2 : can_accept_more_neighbors
                      ((remove_neighbor (sortedSimNode o) wn).1) = true :=
                    can_accept_after_remove hwno hdgo
                  have hwn2 : wn ∉
                      ((remove_neighbor (sortedSimNode o) wn).1).neighbors := by
                    intro hmem2
                    exact ((remove_neighbor_mem hndo wn wn).mp hmem2).2 rfl
                  have hiW2 : i ∉ ((remove_neighbor W i).1).neighbors := by
                    intro hmem2
                    exact ((remove_neighbor_mem hndW i i).mp hmem2).2 rfl
                  have hcW2 : can_accept_more_neighbors
                      ((remove_neighbor W i).1) = true :=
                    can_accept_after_remove hiW hdgW
                  exact negotiateCand_WF hS2 hg2i hg2j hne hnmo2 hnmc hao2
                    _ (some (ws, wn))
                    (Or.inr ⟨ws, wn, (remove_neighbor W i).1, rfl, hwni,
                      hwnj, hwn2, hg2w, hiW2, hcW2⟩)
              · rw [not_lt] at hlt
                rw [evict_too_weak hgo hpm hhead hlt]
                exact sortSim_WF h hgo
          · rename_i h5
            have hacc : can_accept_more_neighbors o = true := by
              by_contra hc2
              exact h5 (fun he => hc2 he)
            exact negotiateCand_WF h hgo hgc hne hmem hnmc hacc
              _ Option.none (Or.inl rfl)

theorem discover_WF (L : PyLib) {s : SimState} (i : Nat) (h : StateWF s) :
    StateWF (discover_and_negotiate L s i) := by
  unfold discover_and_negotiate
  generalize s.map (fun n => n.id) = cands
  induction cands generalizing s with
  | nil => exact h
  | cons cnd rest ih => exact ih (discoverStep_WF L i cnd h)

/-- **C1.** If the state is well formed before a discovery pass (unique
ids, duplicate-free neighbor lists, no self-links, symmetric links, degree
bounds, similarity entries naming current neighbors), then the neighbor
relation is symmetric before the pass, and `discover_and_negotiate`
preserves the full invariant, so the relation is symmetric again when it
returns: every path (successful reciprocal add, eviction of a weakest
neighbor, rollback via restore, removal after a failed reciprocal add)
updates both endpoints. -/
theorem c1_symmetry_preserved (L : PyLib) (s : SimState) (i : Nat)
    (h : StateWF s) :
    NbSymm s ∧ StateWF (discover_and_negotiate L s i) ∧
      NbSymm (discover_and_negotiate L s i) :=
  ⟨NbSymm_of_StateWF h, discover_WF L i h,
    NbSymm_of_StateWF (discover_WF L i h)⟩

/-- Witness for C1: a concrete two-node well-formed state, checked by
evaluation, and the claim instantiated on it. -/
theorem c1_witness :
    StateWF [mkNode 1, mkNode 2] ∧
    (NbSymm [mkNode 1, mkNode 2] ∧
     StateWF (discover_and_negotiate zeroLib [mkNode 1, mkNode 2] 1) ∧
     NbSymm (discover_and_negotiate zeroLib [mkNode 1, mkNode 2] 1)) :=
  ⟨by decide, c1_symmetry_preserved zeroLib [mkNode 1, mkNode 2] 1 (by decide)⟩

end LunarBiscuit
